/-
Verification of the agentmem memory store (src/db.js, src/commands/*.js)
against its natural-language specification.

The JavaScript source is shallowly embedded: each SQLite table is a list of
row structures, every command is a state-passing function `Db → Db × result`,
and machine-level details are modelled as follows.

* Timestamps.  The source stores ISO-8601 UTC strings produced by
  `new Date().toISOString()` and compares them with SQLite's string
  comparison.  On that fixed 24-character format, lexicographic order
  coincides with chronological order, so timestamps are embedded as `Int`
  epoch milliseconds and string comparison as integer comparison.
* `metadata` columns hold `JSON.stringify(data.metadata || {})`; they are
  embedded as the resulting opaque strings (`jsonEmptyObj` for the default).
* FTS5 external-content tables (`events_fts`, …) are lists of documents
  keyed by the content table's rowid.  The `('delete', rowid, old…)`
  command removes the document stored under that rowid, a plain insert adds
  one — exactly the retract/insert discipline the source uses.
* FTS5 `MATCH`/`rank` are abstract parameters: a match predicate and a
  relevance function on the two indexed columns (the claims under test
  quantify over them).
-/
import Mathlib

namespace Agentmem

/-! ## Generic machinery: sorting a list by an integer key, taking the top k

`ORDER BY <key> LIMIT k` (and JavaScript's
`array.sort((a, b) => a.score - b.score).slice(0, limit)`) are embedded as
insertion sort by a key function followed by `take`. -/

variable {α : Type} {β : Type}

/-- Element `a` precedes `b` when its key is not larger (ascending order). -/
def keyLE (key : α → Int) (a b : α) : Prop := key a ≤ key b

instance keyLE.instDecidableRel (key : α → Int) : DecidableRel (keyLE key) :=
  fun a b => inferInstanceAs (Decidable (key a ≤ key b))

instance keyLE.instIsTotal (key : α → Int) : IsTotal α (keyLE key) :=
  ⟨fun a b => Int.le_total (key a) (key b)⟩

instance keyLE.instIsTrans (key : α → Int) : IsTrans α (keyLE key) :=
  ⟨fun _ _ _ h h' => le_trans h h'⟩

/-- Sort ascending by `key` and keep the first `k` elements. -/
def topK (key : α → Int) (k : Nat) (l : List α) : List α :=
  (l.insertionSort (keyLE key)).take k

/-- Number of elements of `l` whose key is strictly below the key of `x`. -/
def cntLt (key : α → Int) (l : List α) (x : α) : Nat :=
  l.countP (fun y => decide (key y < key x))

theorem cntLt_append (key : α → Int) (l₁ l₂ : List α) (x : α) :
    cntLt key (l₁ ++ l₂) x = cntLt key l₁ x + cntLt key l₂ x := by
  simp [cntLt, List.countP_append]

theorem cntLt_perm (key : α → Int) {l₁ l₂ : List α} (h : l₁.Perm l₂) (x : α) :
    cntLt key l₁ x = cntLt key l₂ x :=
  h.countP_eq _

theorem cntLt_eq_zero_of_sorted (key : α → Int) {a : α} {t : List α}
    (hs : List.Sorted (keyLE key) (a :: t)) {x : α} (hax : ¬ key a < key x) :
    cntLt key (a :: t) x = 0 := by
  apply List.countP_eq_zero.2
  intro y hy
  rcases List.mem_cons.1 hy with rfl | hyt
  · simpa using hax
  · have : keyLE key a y := (List.sorted_cons.1 hs).1 y hyt
    simp only [decide_eq_true_eq]
    exact fun hlt => hax (lt_of_le_of_lt this hlt)

/-- In a sorted list, the first `k` elements contain exactly
`min k c` elements below `x`, where `c` is the total number below `x`. -/
theorem cntLt_take_sorted (key : α → Int) :
    ∀ (s : List α), List.Sorted (keyLE key) s → ∀ (k : Nat) (x : α),
      cntLt key (s.take k) x = min k (cntLt key s x)
  | [], _, k, x => by simp [cntLt]
  | a :: t, hs, 0, x => by simp [cntLt]
  | a :: t, hs, k + 1, x => by
    by_cases hax : key a < key x
    · have ih := cntLt_take_sorted key t (List.sorted_cons.1 hs).2 k x
      have e1 : cntLt key ((a :: t).take (k + 1)) x = cntLt key (t.take k) x + 1 := by
        simp [cntLt, List.countP_cons, hax]
      have e2 : cntLt key (a :: t) x = cntLt key t x + 1 := by
        simp [cntLt, List.countP_cons, hax]
      rw [e1, e2, ih]
      omega
    · have h0 : cntLt key (a :: t) x = 0 := cntLt_eq_zero_of_sorted key hs hax
      have h0' : cntLt key (a :: t.take k) x = 0 := by
        apply List.countP_eq_zero.2
        intro y hy
        have : y ∈ a :: t := by
          rcases List.mem_cons.1 hy with rfl | hyt
          · exact List.mem_cons_self _ _
          · exact List.mem_cons_of_mem _ (List.mem_of_mem_take hyt)
        have := List.countP_eq_zero.1 h0 y this
        simpa using this
      simp only [List.take_succ_cons]
      omega

/-- In a sorted list with pairwise-distinct keys, membership in the first
`k` elements is exactly membership plus strictly fewer than `k` smaller
keys. -/
theorem mem_take_sorted_iff (key : α → Int) :
    ∀ (s : List α), List.Sorted (keyLE key) s → (s.map key).Nodup →
      ∀ (k : Nat) (x : α), (x ∈ s.take k ↔ x ∈ s ∧ cntLt key s x < k)
  | [], _, _, k, x => by simp
  | a :: t, hs, hnd, 0, x => by simp
  | a :: t, hs, hnd, k + 1, x => by
    have hsort_t : List.Sorted (keyLE key) t := (List.sorted_cons.1 hs).2
    have hnd_t : (t.map key).Nodup := (List.nodup_cons.1 (by simpa using hnd)).2
    have hka : key a ∉ t.map key := (List.nodup_cons.1 (by simpa using hnd)).1
    have ih := mem_take_sorted_iff key t hsort_t hnd_t k x
    constructor
    · intro hx
      rcases List.mem_cons.1 (by simpa using hx) with hxa | hxt
      · subst hxa
        refine ⟨List.mem_cons_self _ _, ?_⟩
        have : cntLt key (x :: t) x = 0 :=
          cntLt_eq_zero_of_sorted key hs (lt_irrefl _)
        omega
      · obtain ⟨hmem, hcnt⟩ := ih.1 hxt
        refine ⟨List.mem_cons_of_mem _ hmem, ?_⟩
        have : cntLt key (a :: t) x ≤ cntLt key t x + 1 := by
          simp only [cntLt, List.countP_cons]
          split <;> omega
        omega
    · rintro ⟨hmem, hcnt⟩
      rcases List.mem_cons.1 hmem with rfl | hxt
      · simp
      · have hne : key a ≠ key x := by
          intro h
          exact hka (h ▸ List.mem_map_of_mem key hxt)
        have hle : keyLE key a x := (List.sorted_cons.1 hs).1 x hxt
        have hlt : key a < key x := lt_of_le_of_ne hle hne
        have : cntLt key (a :: t) x = cntLt key t x + 1 := by
          simp [cntLt, List.countP_cons, hlt]
        have hx' : x ∈ t.take k := ih.2 ⟨hxt, by omega⟩
        simp [hx']

/-- Two sorted lists with pairwise-distinct keys, whose elements come from a
common pool on which the key is injective, and which have the same members,
are equal. -/
theorem sorted_eq_of_mem_iff (key : α → Int) :
    ∀ (s₁ s₂ : List α), List.Sorted (keyLE key) s₁ → List.Sorted (keyLE key) s₂ →
      (s₁.map key).Nodup → (s₂.map key).Nodup →
      (∀ x ∈ s₁, ∀ y ∈ s₂, key x = key y → x = y) →
      (∀ x, x ∈ s₁ ↔ x ∈ s₂) → s₁ = s₂
  | [], [], _, _, _, _, _, _ => rfl
  | [], b :: t₂, _, _, _, _, _, hiff => by
    have := (hiff b).2 (List.mem_cons_self _ _)
    simp at this
  | a :: t₁, [], _, _, _, _, _, hiff => by
    have := (hiff a).1 (List.mem_cons_self _ _)
    simp at this
  | a :: t₁, b :: t₂, hs₁, hs₂, hnd₁, hnd₂, hinj, hiff => by
    have hab : a = b := by
      have ha2 : a ∈ b :: t₂ := (hiff a).1 (List.mem_cons_self _ _)
      have hb1 : b ∈ a :: t₁ := (hiff b).2 (List.mem_cons_self _ _)
      have hba : keyLE key b a := by
        rcases List.mem_cons.1 ha2 with rfl | h
        · exact le_refl _
        · exact (List.sorted_cons.1 hs₂).1 a h
      have hab' : keyLE key a b := by
        rcases List.mem_cons.1 hb1 with rfl | h
        · exact le_refl _
        · exact (List.sorted_cons.1 hs₁).1 b h
      exact hinj a (List.mem_cons_self _ _) b (List.mem_cons_self _ _)
        (le_antisymm hab' hba)
    subst hab
    have hka₁ : key a ∉ t₁.map key := (List.nodup_cons.1 (by simpa using hnd₁)).1
    have hka₂ : key a ∉ t₂.map key := (List.nodup_cons.1 (by simpa using hnd₂)).1
    have htl : t₁ = t₂ := by
      apply sorted_eq_of_mem_iff key t₁ t₂ (List.sorted_cons.1 hs₁).2
        (List.sorted_cons.1 hs₂).2
        (List.nodup_cons.1 (by simpa using hnd₁)).2
        (List.nodup_cons.1 (by simpa using hnd₂)).2
        (fun x hx y hy h => hinj x (List.mem_cons_of_mem _ hx) y
          (List.mem_cons_of_mem _ hy) h)
      intro x
      constructor
      · intro hx
        rcases List.mem_cons.1 ((hiff x).1 (List.mem_cons_of_mem _ hx)) with rfl | h
        · exact absurd (List.mem_map_of_mem key hx) hka₁
        · exact h
      · intro hx
        rcases List.mem_cons.1 ((hiff x).2 (List.mem_cons_of_mem _ hx)) with rfl | h
        · exact absurd (List.mem_map_of_mem key hx) hka₂
        · exact h
    rw [htl]

theorem topK_subperm (key : α → Int) (k : Nat) (l : List α) :
    (topK key k l).Subperm l :=
  ((List.take_sublist _ _).subperm).trans (List.perm_insertionSort _ l).subperm

theorem nodup_map_of_subperm (f : α → Int) {l₁ l₂ : List α}
    (h : l₁.Subperm l₂) (hnd : (l₂.map f).Nodup) : (l₁.map f).Nodup := by
  obtain ⟨l', hperm, hsub⟩ := h
  have h₁ : (l'.map f).Nodup := ((hsub.map f).nodup hnd)
  exact ((hperm.map f).nodup_iff).1 h₁

theorem subperm_append {l₁ l₂ r₁ r₂ : List α}
    (h₁ : l₁.Subperm r₁) (h₂ : l₂.Subperm r₂) : (l₁ ++ l₂).Subperm (r₁ ++ r₂) := by
  obtain ⟨l₁', hp₁, hs₁⟩ := h₁
  obtain ⟨l₂', hp₂, hs₂⟩ := h₂
  exact ⟨l₁' ++ l₂', hp₁.append hp₂, hs₁.append hs₂⟩

theorem topK_sorted (key : α → Int) (k : Nat) (l : List α) :
    List.Sorted (keyLE key) (topK key k l) :=
  (List.sorted_insertionSort _ l).sublist (List.take_sublist _ _)

theorem topK_length_le (key : α → Int) (k : Nat) (l : List α) :
    (topK key k l).length ≤ k := by
  simp [topK]

theorem cntLt_topK (key : α → Int) (k : Nat) (l : List α) (x : α) :
    cntLt key (topK key k l) x = min k (cntLt key l x) := by
  rw [topK, cntLt_take_sorted key _ (List.sorted_insertionSort _ l) k x,
    cntLt_perm key (List.perm_insertionSort _ l) x]

theorem mem_topK_iff (key : α → Int) {l : List α} (hnd : (l.map key).Nodup)
    (k : Nat) (x : α) : x ∈ topK key k l ↔ x ∈ l ∧ cntLt key l x < k := by
  have hnd' : ((l.insertionSort (keyLE key)).map key).Nodup :=
    (((List.perm_insertionSort (keyLE key) l).map key).nodup_iff).2 hnd
  rw [topK, mem_take_sorted_iff key _ (List.sorted_insertionSort _ l) hnd' k x,
    List.mem_insertionSort, cntLt_perm key (List.perm_insertionSort _ l) x]

theorem min_sum_lt_iff (k a b c : Nat) :
    min k a + min k b + min k c < k ↔ a + b + c < k := by
  rcases Nat.le_total k a with h | h <;> rcases Nat.le_total k b with h' | h' <;>
    rcases Nat.le_total k c with h'' | h'' <;>
    simp [Nat.min_eq_left, Nat.min_eq_right, *] <;> omega

/-- The key fact behind post-merge truncation: merging the per-source top-`k`
lists and taking the overall top `k` gives the same list as taking the top
`k` of the full merge, provided all keys are distinct. -/
theorem topK_merge (key : α → Int) (k : Nat) (A B C : List α)
    (hnd : ((A ++ B ++ C).map key).Nodup) :
    topK key k (topK key k A ++ topK key k B ++ topK key k C) =
      topK key k (A ++ B ++ C) := by
  have hndA : (A.map key).Nodup := by
    refine nodup_map_of_subperm key ?_ hnd
    exact ((List.sublist_append_left A B).trans
      (List.sublist_append_left (A ++ B) C)).subperm
  have hndB : (B.map key).Nodup := by
    refine nodup_map_of_subperm key ?_ hnd
    exact ((List.sublist_append_right A B).trans
      (List.sublist_append_left (A ++ B) C)).subperm
  have hndC : (C.map key).Nodup := by
    exact nodup_map_of_subperm key (List.sublist_append_right (A ++ B) C).subperm hnd
  have hsubT : (topK key k A ++ topK key k B ++ topK key k C).Subperm (A ++ B ++ C) :=
    subperm_append (subperm_append (topK_subperm key k A) (topK_subperm key k B))
      (topK_subperm key k C)
  have hndT : ((topK key k A ++ topK key k B ++ topK key k C).map key).Nodup :=
    nodup_map_of_subperm key hsubT hnd
  -- both sides are sorted with distinct keys drawn from `A ++ B ++ C`
  apply sorted_eq_of_mem_iff key _ _ (topK_sorted key k _) (topK_sorted key k _)
    (nodup_map_of_subperm key (topK_subperm key k _) hndT)
    (nodup_map_of_subperm key (topK_subperm key k _) hnd)
  · intro x hx y hy hkxy
    have hx' : x ∈ A ++ B ++ C :=
      hsubT.subset ((topK_subperm key k _).subset hx)
    have hy' : y ∈ A ++ B ++ C := (topK_subperm key k _).subset hy
    exact List.inj_on_of_nodup_map hnd hx' hy' hkxy
  · intro x
    rw [mem_topK_iff key hndT k x, mem_topK_iff key hnd k x]
    have hcnt : cntLt key (topK key k A ++ topK key k B ++ topK key k C) x =
        min k (cntLt key A x) + min k (cntLt key B x) + min k (cntLt key C x) := by
      rw [cntLt_append, cntLt_append, cntLt_topK, cntLt_topK, cntLt_topK]
    have hcnt' : cntLt key (A ++ B ++ C) x =
        cntLt key A x + cntLt key B x + cntLt key C x := by
      rw [cntLt_append, cntLt_append]
    constructor
    · rintro ⟨hmem, hlt⟩
      rw [hcnt] at hlt
      have hsum : cntLt key A x + cntLt key B x + cntLt key C x < k :=
        (min_sum_lt_iff _ _ _ _).1 hlt
      refine ⟨?_, by omega⟩
      rcases List.mem_append.1 hmem with h | h
      · rcases List.mem_append.1 h with h' | h'
        · exact List.mem_append_left _ (List.mem_append_left _
            ((topK_subperm key k A).subset h'))
        · exact List.mem_append_left _ (List.mem_append_right _
            ((topK_subperm key k B).subset h'))
      · exact List.mem_append_right _ ((topK_subperm key k C).subset h)
    · rintro ⟨hmem, hlt⟩
      rw [hcnt'] at hlt
      have hA : cntLt key A x < k := by omega
      have hB : cntLt key B x < k := by omega
      have hC : cntLt key C x < k := by omega
      refine ⟨?_, ?_⟩
      · rcases List.mem_append.1 hmem with h | h
        · rcases List.mem_append.1 h with h' | h'
          · exact List.mem_append_left _ (List.mem_append_left _
              ((mem_topK_iff key hndA k x).2 ⟨h', hA⟩))
          · exact List.mem_append_left _ (List.mem_append_right _
              ((mem_topK_iff key hndB k x).2 ⟨h', hB⟩))
        · exact List.mem_append_right _ ((mem_topK_iff key hndC k x).2 ⟨h, hC⟩)
      · rw [hcnt]
        exact (min_sum_lt_iff _ _ _ _).2 (by omega)

/-- Mathlib's `orderedInsert` commutes with a key-preserving map. -/
theorem orderedInsert_map (key : α → Int) (kb : β → Int) (f : β → α)
    (hf : ∀ x, key (f x) = kb x) (x : β) :
    ∀ (s : List β),
      (s.map f).orderedInsert (keyLE key) (f x) = (s.orderedInsert (keyLE kb) x).map f
  | [] => rfl
  | b :: t => by
    have hiff : keyLE key (f x) (f b) ↔ keyLE kb x b := by simp [keyLE, hf]
    simp only [List.map_cons, List.orderedInsert]
    by_cases h : keyLE kb x b
    · rw [if_pos (hiff.2 h), if_pos h, List.map_cons, List.map_cons]
    · rw [if_neg (fun hc => h (hiff.1 hc)), if_neg h, List.map_cons,
        orderedInsert_map key kb f hf x t]

/-- Mathlib's `insertionSort` commutes with a key-preserving map. -/
theorem insertionSort_map (key : α → Int) (kb : β → Int) (f : β → α)
    (hf : ∀ x, key (f x) = kb x) :
    ∀ (l : List β),
      (l.map f).insertionSort (keyLE key) = (l.insertionSort (keyLE kb)).map f
  | [] => rfl
  | b :: t => by
    simp only [List.map_cons, List.insertionSort]
    rw [insertionSort_map key kb f hf t, orderedInsert_map key kb f hf]

/-- Taking `topK` commutes with a key-preserving map. -/
theorem topK_map (key : α → Int) (kb : β → Int) (f : β → α)
    (hf : ∀ x, key (f x) = kb x) (k : Nat) (l : List β) :
    topK key k (l.map f) = (topK kb k l).map f := by
  rw [topK, topK, insertionSort_map key kb f hf, List.map_take]

/-! ## `extractSnippet` (src/commands/search.js, lines 76–101)

Strings are handled as `List Char`.  JavaScript's `substring`, `indexOf`,
`toLowerCase` and `split(/\s+/)` are embedded below; `split(/\s+/)` splits
on maximal whitespace runs and keeps the empty pieces JavaScript produces
at a leading or trailing run. -/

/-- A character matched by the JavaScript `\s` class (ASCII part). -/
def isWsChar (c : Char) : Bool :=
  c == ' ' || c == '\t' || c == '\n' || c == '\r' || c == '\x0b' || c == '\x0c'

/-- JavaScript's `String.prototype.split(/\s+/)`.  Fuel (one unit per character) keeps
the recursion structural; `splitWs` supplies enough. -/
def splitWsAux : Nat → List Char → List (List Char)
  | 0, _ => [[]]
  | _ + 1, [] => [[]]
  | fuel + 1, c :: rest =>
    if isWsChar c then
      [] :: splitWsAux fuel (rest.dropWhile (fun d => isWsChar d))
    else
      match splitWsAux fuel rest with
      | t :: ts => (c :: t) :: ts
      | [] => [[c]]

def splitWs (l : List Char) : List (List Char) :=
  splitWsAux (l.length + 1) l

/-- JavaScript's `String.prototype.toLowerCase` (sufficient for the ASCII data at hand). -/
def lowerL (l : List Char) : List Char := l.map Char.toLower

/-- JavaScript's `hay.indexOf(needle)`: index of the first occurrence, `none` for
JavaScript's `-1`; the empty needle occurs at index 0. -/
def idxOf (needle : List Char) : List Char → Option Nat
  | [] => if needle.isPrefixOf ([] : List Char) then some 0 else none
  | c :: t =>
    if needle.isPrefixOf (c :: t) then some 0 else (idxOf needle t).map (· + 1)

def dots : List Char := ['.', '.', '.']

/-- The position scan of `extractSnippet`:
`if (idx !== -1 && (pos === -1 || idx < pos)) pos = idx` over all terms. -/
def findPos (lowerText : List Char) (terms : List (List Char)) : Option Nat :=
  terms.foldl
    (fun pos term =>
      match idxOf term lowerText with
      | none => pos
      | some idx =>
        match pos with
        | none => some idx
        | some p => if idx < p then some idx else some p)
    none

/-- The function `extractSnippet(text, queryText, length = 150)` from
src/commands/search.js. -/
def extractSnippet (text queryText : List Char) : List Char :=
  let terms := splitWs (lowerL queryText)
  let lowerText := lowerL text
  match findPos lowerText terms with
  | none => text.take 150 ++ dots
  | some pos =>
    -- const start = Math.max(0, pos - length / 2): Nat subtraction clamps at 0
    let start := pos - 75
    -- const end = Math.min(text.length, pos + length / 2)
    let stop := min text.length (pos + 75)
    -- text.substring(start, end)
    let snippet := (text.drop start).take (stop - start)
    let snippet := if 0 < start then dots ++ snippet else snippet
    if stop < text.length then snippet ++ dots else snippet

/-- The least element of a list of naturals (`none` when empty). -/
def minPos : List Nat → Option Nat
  | [] => none
  | x :: xs => some (xs.foldl Nat.min x)

/-- The snippet rule as the specification words it: the earliest
case-insensitive occurrence among the positions of all whitespace-split
query terms; a 150-character window centred there, clamped to the field
bounds; an ellipsis on the side(s) where the window does not reach the
field boundary; the first 150 characters plus a trailing ellipsis when no
term occurs. -/
def specSnippet (text queryText : List Char) : List Char :=
  let terms := splitWs (lowerL queryText)
  let lowerText := lowerL text
  match minPos (terms.filterMap (fun t => idxOf t lowerText)) with
  | none => text.take 150 ++ dots
  | some pos =>
    let start := pos - 75
    let stop := min (pos + 75) text.length
    let window := (text.drop start).take (stop - start)
    let window := if start ≠ 0 then dots ++ window else window
    if stop ≠ text.length then window ++ dots else window

theorem foldl_min_init (l : List Nat) :
    ∀ (a b : Nat), l.foldl Nat.min (Nat.min a b) = Nat.min a (l.foldl Nat.min b) := by
  induction l with
  | nil => intro a b; rfl
  | cons c t ih =>
    intro a b
    show t.foldl Nat.min (Nat.min (Nat.min a b) c) = Nat.min a (t.foldl Nat.min (Nat.min b c))
    rw [show Nat.min (Nat.min a b) c = Nat.min a (Nat.min b c) from min_assoc a b c, ih]

/-- Merge of an already-found position with a candidate, as the scan does. -/
def optMerge : Option Nat → Option Nat → Option Nat
  | none, m => m
  | some p, none => some p
  | some p, some m => some (Nat.min p m)

theorem optMerge_minPos_cons (acc : Option Nat) (i : Nat) (m : List Nat) :
    optMerge (optMerge acc (some i)) (minPos m) = optMerge acc (minPos (i :: m)) := by
  cases m with
  | nil => cases acc <;> simp [optMerge, minPos]
  | cons x xs =>
    cases acc with
    | none =>
      show optMerge (some i) (some (xs.foldl Nat.min x)) =
        optMerge none (some (xs.foldl Nat.min (Nat.min i x)))
      simp [optMerge, foldl_min_init]
    | some p =>
      show some (Nat.min (Nat.min p i) (xs.foldl Nat.min x)) =
        some (Nat.min p (xs.foldl Nat.min (Nat.min i x)))
      rw [foldl_min_init]
      exact congrArg some (min_assoc p i _)

theorem findPos_eq_minPos (lowerText : List Char) :
    ∀ (terms : List (List Char)) (acc : Option Nat),
      terms.foldl
        (fun pos term =>
          match idxOf term lowerText with
          | none => pos
          | some idx =>
            match pos with
            | none => some idx
            | some p => if idx < p then some idx else some p)
        acc =
      optMerge acc (minPos (terms.filterMap (fun t => idxOf t lowerText))) := by
  intro terms
  induction terms with
  | nil => intro acc; cases acc <;> rfl
  | cons t ts ih =>
    intro acc
    rw [List.foldl_cons, ih, List.filterMap_cons]
    cases hidx : idxOf t lowerText with
    | none => rfl
    | some i =>
      rw [← optMerge_minPos_cons]
      congr 1
      cases acc with
      | none => rfl
      | some p =>
        show (if i < p then some i else some p) = some (Nat.min p i)
        rcases Nat.lt_or_ge i p with h | h
        · rw [if_pos h]
          exact congrArg some (min_eq_right (Nat.le_of_lt h)).symm
        · rw [if_neg (Nat.not_lt.2 h)]
          exact congrArg some (min_eq_left h).symm

/-! ## `generateId` (src/commands/store.js, lines 258–276)

The function only reads the `id` column, so it is embedded over the list
of existing ids of the relevant kind. -/

def digitChar (n : Nat) : Char := Char.ofNat (48 + n)

/-- Decimal rendering of a natural number — JavaScript's `String(seq)` for
a non-negative integer.  Fuel (one unit per digit) keeps the recursion
structural; `natRepr` supplies enough. -/
def natReprAux : Nat → Nat → List Char
  | 0, _ => []
  | fuel + 1, n =>
    if n < 10 then [digitChar n]
    else natReprAux fuel (n / 10) ++ [digitChar (n % 10)]

def natRepr (n : Nat) : List Char := natReprAux (n + 1) n

/-- JavaScript's `s.padStart(3, '0')`. -/
def padStart3 (s : List Char) : List Char :=
  List.replicate (3 - s.length) '0' ++ s

/-- The synthesized id `{date}-{String(seq).padStart(3, '0')}`. -/
def mkId (date : String) (n : Nat) : String :=
  date ++ "-" ++ String.mk (padStart3 (natRepr n))

/-- Byte-wise strict comparison of two character lists — SQLite's BINARY
collation, used by `ORDER BY id DESC` (UTF-8 byte order coincides with
code-point order). -/
def byteLt : List Char → List Char → Bool
  | [], [] => false
  | [], _ :: _ => true
  | _ :: _, [] => false
  | a :: as, b :: bs => if a < b then true else if b < a then false else byteLt as bs

/-- The query `SELECT id FROM … WHERE id LIKE (date ++ dash ++ percent) ORDER BY id DESC LIMIT 1`:
the byte-wise greatest id carrying the date prefix, `none` when no id
matches.  (SQLite `LIKE` is ASCII-case-insensitive, immaterial for a
digits-and-dashes pattern.) -/
def sqlMaxId (date : String) (ids : List String) : Option String :=
  (ids.filter (fun i => (date ++ "-").data.isPrefixOf i.data)).foldl
    (fun acc s =>
      match acc with
      | none => some s
      | some m => if byteLt m.data s.data then some s else some m)
    none

/-- The steps `const parts = max.id.split('-')` followed by
`parts[parts.length - 1]`: the segment after the last dash (the whole
string when there is no dash). -/
def lastDashSeg (s : String) : List Char :=
  (s.data.reverse.takeWhile (fun c => c ≠ '-')).reverse

def isDigitChar (c : Char) : Bool := '0' ≤ c && c ≤ '9'

/-- JavaScript's `parseInt` on the inputs at hand: the maximal leading run
of decimal digits, `none` for NaN. -/
def parseIntJS (s : List Char) : Option Nat :=
  let ds := s.takeWhile isDigitChar
  if ds.isEmpty then none
  else some (ds.foldl (fun acc c => acc * 10 + (c.toNat - 48)) 0)

/-- The generator from src/commands/store.js (lines 258-276).  When the parse
yields NaN the source computes `String(NaN).padStart(3, '0')`, i.e. the
three-character string `"NaN"`. -/
def generateId (date : String) (ids : List String) : String :=
  match sqlMaxId date ids with
  | none => mkId date 1
  | some m =>
    match parseIntJS (lastDashSeg m) with
    | some n => mkId date (n + 1)
    | none => date ++ "-NaN"

/-- The canonical three-digit form of a padded sequence number. -/
def threeDig (n : Nat) : List Char :=
  [digitChar (n / 100), digitChar (n / 10 % 10), digitChar (n % 10)]

set_option maxRecDepth 4000 in
theorem padStart3_natRepr : ∀ n < 1000, padStart3 (natRepr n) = threeDig n := by decide

theorem digitChar_lt_iff : ∀ a < 10, ∀ b < 10,
    (digitChar a < digitChar b ↔ a < b) := by decide

theorem digitChar_ne_dash : ∀ a < 10, digitChar a ≠ '-' := by decide

theorem digitChar_isDigit : ∀ a < 10, isDigitChar (digitChar a) = true := by decide

theorem digitChar_toNat : ∀ a < 10, (digitChar a).toNat = 48 + a := by decide

theorem digitChar_eq_iff : ∀ a < 10, ∀ b < 10,
    (digitChar a = digitChar b ↔ a = b) := by decide

/-- On three-digit renderings, byte order is numeric order. -/
theorem byteLt_threeDig {a b : Nat} (ha : a < 1000) (hb : b < 1000) :
    (byteLt (threeDig a) (threeDig b) = true) ↔ a < b := by
  have h1 : a / 100 < 10 := by omega
  have h2 : a / 10 % 10 < 10 := by omega
  have h3 : a % 10 < 10 := by omega
  have g1 : b / 100 < 10 := by omega
  have g2 : b / 10 % 10 < 10 := by omega
  have g3 : b % 10 < 10 := by omega
  show (byteLt [digitChar (a / 100), digitChar (a / 10 % 10), digitChar (a % 10)]
      [digitChar (b / 100), digitChar (b / 10 % 10), digitChar (b % 10)] = true) ↔ a < b
  simp only [byteLt]
  by_cases c1 : digitChar (a / 100) < digitChar (b / 100)
  · have hd1 := (digitChar_lt_iff _ h1 _ g1).1 c1
    rw [if_pos c1]
    exact ⟨fun _ => by omega, fun _ => rfl⟩
  · rw [if_neg c1]
    by_cases c1' : digitChar (b / 100) < digitChar (a / 100)
    · have hd1 := (digitChar_lt_iff _ g1 _ h1).1 c1'
      rw [if_pos c1']
      exact ⟨fun h => by simp at h, fun h => by omega⟩
    · have e1 : a / 100 = b / 100 := by
        have na : ¬ (a / 100 < b / 100) := fun h => c1 ((digitChar_lt_iff _ h1 _ g1).2 h)
        have nb : ¬ (b / 100 < a / 100) := fun h => c1' ((digitChar_lt_iff _ g1 _ h1).2 h)
        omega
      rw [if_neg c1']
      by_cases c2 : digitChar (a / 10 % 10) < digitChar (b / 10 % 10)
      · have hd2 := (digitChar_lt_iff _ h2 _ g2).1 c2
        rw [if_pos c2]
        exact ⟨fun _ => by omega, fun _ => rfl⟩
      · rw [if_neg c2]
        by_cases c2' : digitChar (b / 10 % 10) < digitChar (a / 10 % 10)
        · have hd2 := (digitChar_lt_iff _ g2 _ h2).1 c2'
          rw [if_pos c2']
          exact ⟨fun h => by simp at h, fun h => by omega⟩
        · have e2 : a / 10 % 10 = b / 10 % 10 := by
            have na : ¬ (a / 10 % 10 < b / 10 % 10) := fun h => c2 ((digitChar_lt_iff _ h2 _ g2).2 h)
            have nb : ¬ (b / 10 % 10 < a / 10 % 10) := fun h => c2' ((digitChar_lt_iff _ g2 _ h2).2 h)
            omega
          rw [if_neg c2']
          by_cases c3 : digitChar (a % 10) < digitChar (b % 10)
          · have hd3 := (digitChar_lt_iff _ h3 _ g3).1 c3
            rw [if_pos c3]
            exact ⟨fun _ => by omega, fun _ => rfl⟩
          · rw [if_neg c3]
            by_cases c3' : digitChar (b % 10) < digitChar (a % 10)
            · have hd3 := (digitChar_lt_iff _ g3 _ h3).1 c3'
              rw [if_pos c3']
              exact ⟨fun h => by simp at h, fun h => by omega⟩
            · have e3 : a % 10 = b % 10 := by
                have na : ¬ (a % 10 < b % 10) := fun h => c3 ((digitChar_lt_iff _ h3 _ g3).2 h)
                have nb : ¬ (b % 10 < a % 10) := fun h => c3' ((digitChar_lt_iff _ g3 _ h3).2 h)
                omega
              rw [if_neg c3']
              show (byteLt [] [] = true) ↔ a < b
              simp only [byteLt]
              exact ⟨fun h => by simp at h, fun h => by omega⟩

theorem byteLt_append_left (p : List Char) (a b : List Char) :
    byteLt (p ++ a) (p ++ b) = byteLt a b := by
  induction p with
  | nil => rfl
  | cons c t ih =>
    show (if c < c then true else if c < c then false else byteLt (t ++ a) (t ++ b)) =
      byteLt a b
    rw [if_neg (lt_irrefl c), if_neg (lt_irrefl c), ih]

theorem data_append (s t : String) : (s ++ t).data = s.data ++ t.data := by
  cases s; cases t; rfl

theorem mkId_data (date : String) {n : Nat} (h : n < 1000) :
    (mkId date n).data = date.data ++ '-' :: threeDig n := by
  show (date ++ "-" ++ String.mk (padStart3 (natRepr n))).data = _
  rw [data_append, data_append, padStart3_natRepr n h]
  simp

theorem threeDig_ne_dash {n : Nat} (hn : n < 1000) :
    ∀ c ∈ threeDig n, c ≠ '-' := by
  intro c hc
  have : c = digitChar (n / 100) ∨ c = digitChar (n / 10 % 10) ∨ c = digitChar (n % 10) := by
    simpa [threeDig] using hc
  rcases this with h | h | h <;>
    exact h ▸ digitChar_ne_dash _ (by omega)

theorem takeWhile_append_stop {p : Char → Bool} :
    ∀ (l : List Char) (x : Char) (r : List Char), (∀ c ∈ l, p c = true) → p x = false →
      ((l ++ x :: r).takeWhile p) = l
  | [], x, r, _, hx => by
    rw [List.nil_append, List.takeWhile_cons_of_neg (by simp [hx])]
  | c :: t, x, r, hl, hx => by
    have hc : p c = true := hl c (List.mem_cons_self _ _)
    rw [List.cons_append, List.takeWhile_cons_of_pos hc,
      takeWhile_append_stop t x r (fun d hd => hl d (List.mem_cons_of_mem _ hd)) hx]

theorem lastDashSeg_mkId (date : String) {n : Nat} (h : n < 1000) :
    lastDashSeg (mkId date n) = threeDig n := by
  rw [lastDashSeg, mkId_data date h]
  have e : (date.data ++ '-' :: threeDig n).reverse =
      (threeDig n).reverse ++ '-' :: date.data.reverse := by
    simp
  rw [e, takeWhile_append_stop _ '-' _ ?_ (by simp)]
  · exact List.reverse_reverse _
  · intro c hc
    have := threeDig_ne_dash h c (List.mem_reverse.1 hc)
    simpa using this

theorem takeWhile_all {p : Char → Bool} :
    ∀ (l : List Char), (∀ c ∈ l, p c = true) → l.takeWhile p = l
  | [], _ => rfl
  | c :: t, hl => by
    rw [List.takeWhile_cons_of_pos (hl c (List.mem_cons_self _ _)),
      takeWhile_all t (fun d hd => hl d (List.mem_cons_of_mem _ hd))]

theorem parseIntJS_threeDig {n : Nat} (h : n < 1000) :
    parseIntJS (threeDig n) = some n := by
  have hall : ∀ c ∈ threeDig n, isDigitChar c = true := by
    intro c hc
    have : c = digitChar (n / 100) ∨ c = digitChar (n / 10 % 10) ∨ c = digitChar (n % 10) := by
      simpa [threeDig] using hc
    rcases this with hh | hh | hh <;>
      exact hh ▸ digitChar_isDigit _ (by omega)
  rw [parseIntJS]
  simp only [takeWhile_all _ hall]
  rw [if_neg (by simp [threeDig, List.isEmpty])]
  congr 1
  show ((0 * 10 + ((digitChar (n / 100)).toNat - 48)) * 10 +
      ((digitChar (n / 10 % 10)).toNat - 48)) * 10 + ((digitChar (n % 10)).toNat - 48) = n
  rw [digitChar_toNat _ (by omega), digitChar_toNat _ (by omega),
    digitChar_toNat _ (by omega)]
  omega

theorem mkId_inj (date : String) {m n : Nat} (hm : m < 1000) (hn : n < 1000)
    (h : mkId date m = mkId date n) : m = n := by
  have h1 : lastDashSeg (mkId date m) = lastDashSeg (mkId date n) := by rw [h]
  rw [lastDashSeg_mkId date hm, lastDashSeg_mkId date hn] at h1
  have := parseIntJS_threeDig hm
  rw [h1, parseIntJS_threeDig hn] at this
  exact (Option.some.inj this).symm

theorem byteLt_mkId (date : String) {m n : Nat} (hm : m < 1000) (hn : n < 1000) :
    (byteLt (mkId date m).data (mkId date n).data = true) ↔ m < n := by
  rw [mkId_data date hm, mkId_data date hn]
  have : date.data ++ '-' :: threeDig m = (date.data ++ ['-']) ++ threeDig m := by simp
  rw [this]
  have : date.data ++ '-' :: threeDig n = (date.data ++ ['-']) ++ threeDig n := by simp
  rw [this, byteLt_append_left]
  exact byteLt_threeDig hm hn

theorem isPrefixOf_mkId (date : String) {n : Nat} (hn : n < 1000) :
    (date ++ "-").data.isPrefixOf (mkId date n).data = true := by
  rw [List.isPrefixOf_iff_prefix, data_append, mkId_data date hn]
  show date.data ++ "-".data <+: date.data ++ '-' :: threeDig n
  have : date.data ++ '-' :: threeDig n = (date.data ++ "-".data) ++ threeDig n := by simp
  rw [this]
  exact List.prefix_append _ _

theorem foldl_max_le : ∀ (ns : List Nat) (m k : Nat), m ≤ k → (∀ n ∈ ns, n ≤ k) →
    ns.foldl Nat.max m ≤ k
  | [], m, k, hm, _ => hm
  | n :: t, m, k, hm, hall => by
    apply foldl_max_le t _ k
    · exact max_le hm (hall n (List.mem_cons_self _ _))
    · exact fun x hx => hall x (List.mem_cons_of_mem _ hx)

theorem le_foldl_max : ∀ (ns : List Nat) (m : Nat),
    m ≤ ns.foldl Nat.max m ∧ ∀ n ∈ ns, n ≤ ns.foldl Nat.max m
  | [], m => ⟨Nat.le_refl m, by simp⟩
  | n :: t, m => by
    obtain ⟨h1, h2⟩ := le_foldl_max t (Nat.max m n)
    refine ⟨Nat.le_trans (le_max_left m n) h1, ?_⟩
    intro x hx
    rcases List.mem_cons.1 hx with rfl | hxt
    · exact Nat.le_trans (le_max_right m x) h1
    · exact h2 x hxt

theorem sqlMaxId_fold (date : String) :
    ∀ (ns : List Nat), (∀ n ∈ ns, n < 1000) → ∀ (m : Nat), m < 1000 →
      (ns.map (mkId date)).foldl
        (fun acc s =>
          match acc with
          | none => some s
          | some mm => if byteLt mm.data s.data then some s else some mm)
        (some (mkId date m)) = some (mkId date (ns.foldl Nat.max m))
  | [], _, m, _ => rfl
  | n :: t, hall, m, hm => by
    have hn : n < 1000 := hall n (List.mem_cons_self _ _)
    have step : (if byteLt (mkId date m).data (mkId date n).data then some (mkId date n)
        else some (mkId date m)) = some (mkId date (Nat.max m n)) := by
      by_cases hlt : m < n
      · rw [if_pos ((byteLt_mkId date hm hn).2 hlt),
          show Nat.max m n = n from max_eq_right (Nat.le_of_lt hlt)]
      · have : byteLt (mkId date m).data (mkId date n).data = false := by
          cases hb : byteLt (mkId date m).data (mkId date n).data
          · rfl
          · exact absurd ((byteLt_mkId date hm hn).1 hb) hlt
        rw [if_neg (by simp [this]),
          show Nat.max m n = m from max_eq_left (Nat.le_of_not_lt hlt)]
    show (t.map (mkId date)).foldl _
        (if byteLt (mkId date m).data (mkId date n).data then some (mkId date n)
          else some (mkId date m)) = _
    rw [step]
    exact sqlMaxId_fold date t (fun x hx => hall x (List.mem_cons_of_mem _ hx))
      (Nat.max m n) (max_lt hm hn)

/-! ## The database model (src/db.js)

Each SQLite table is a list of row structures.  `rowid` carries SQLite's
implicit rowid for the three FTS-indexed tables, allocated from a
per-table counter. -/

structure AgentRow where
  id : String
  created_at : Int
  deriving DecidableEq, Repr

structure EventRow where
  id : String
  agent_id : String
  type : String
  timestamp : Int
  title : String
  content : String
  metadata : String
  tier : String
  rowid : Nat
  deriving DecidableEq, Repr

structure EntityRow where
  id : String
  agent_id : String
  type : String
  name : String
  content : String
  updated_at : Int
  metadata : String
  rowid : Nat
  deriving DecidableEq, Repr

structure LessonRow where
  id : String
  agent_id : String
  type : String
  timestamp : Int
  title : String
  content : String
  source_event_id : Option String
  consolidated_to : Option String
  metadata : String
  rowid : Nat
  deriving DecidableEq, Repr

structure PrincipleRow where
  id : String
  agent_id : String
  name : String
  content : String
  source_lessons : String
  created_at : Int
  updated_at : Int
  metadata : String
  deriving DecidableEq, Repr

structure SummaryRow where
  id : String
  agent_id : String
  type : String
  period : String
  content : String
  event_count : Int
  created_at : Int
  deriving DecidableEq, Repr

structure StateRow where
  agent_id : String
  content : String
  updated_at : Int
  deriving DecidableEq, Repr

/-- One document of an FTS5 external-content table, keyed by the content
table's rowid.  `colA`/`colB` are the two indexed columns: title+content
for events and lessons, name+content for entities. -/
structure FtsDoc where
  rowid : Nat
  colA : String
  colB : String
  deriving DecidableEq, Repr

structure Db where
  agents : List AgentRow
  events : List EventRow
  entities : List EntityRow
  lessons : List LessonRow
  principles : List PrincipleRow
  summaries : List SummaryRow
  states : List StateRow
  eventsFts : List FtsDoc
  entitiesFts : List FtsDoc
  lessonsFts : List FtsDoc
  nextEventRowid : Nat
  nextEntityRowid : Nat
  nextLessonRowid : Nat
  deriving DecidableEq, Repr

def emptyDb : Db := ⟨[], [], [], [], [], [], [], [], [], [], 0, 0, 0⟩

/-- The string `JSON.stringify` produces for an empty object. -/
def jsonEmptyObj : String := "\x7b\x7d"

/-- Models `JSON.stringify` of `data.metadata` with the empty-object default, over the already-stringified
optional metadata object. -/
def mdStr (m : Option String) : String := m.getD jsonEmptyObj

/-- The function `ensureAgent(agentId)` (src/db.js, lines 174–181): `SELECT` then
`INSERT` when absent. -/
def ensureAgent (now : Int) (agentId : String) (db : Db) : Db :=
  match db.agents.find? (fun a => a.id == agentId) with
  | some _ => db
  | none => {db with agents := db.agents ++ [⟨agentId, now⟩]}

/-- The function `updateTiers()` (src/db.js, lines 183–197): one `UPDATE` over every
event row, classifying by the two precomputed thresholds. -/
def updateTiers (now : Int) (db : Db) : Db :=
  let hotThreshold := now - 72 * 60 * 60 * 1000
  let warmThreshold := now - 30 * 24 * 60 * 60 * 1000
  {db with events := db.events.map (fun e =>
    {e with tier :=
      if e.timestamp < warmThreshold then "cold"
      else if e.timestamp < hotThreshold then "warm"
      else "hot"})}

/-! ## Store operations (src/commands/store.js) -/

/-- Payload of an event store.  The `metadata` field is the caller's metadata
object in stringified form (absent ⇒ `jsonEmptyObj` is stored). -/
structure EventData where
  id : Option String
  type : String
  timestamp : Option Int
  title : String
  content : String
  metadata : Option String
  deriving DecidableEq, Repr

/-- The three SQL statements of `storeEvent`'s update branch
(src/commands/store.js, lines 13–39), in source order: FTS retract,
primary `UPDATE`, FTS insert.  The source opens no transaction around
them, so each statement autocommits on its own. -/
def storeEventUpdateStmts (d : EventData) (id : String) (ts : Int)
    (exRowid : Nat) : List (Db → Db) :=
  [ fun db => {db with eventsFts := db.eventsFts.filter (fun doc => doc.rowid != exRowid)},
    fun db => {db with events := db.events.map (fun r =>
      if r.id == id then
        {r with
          type := d.type, timestamp := ts, title := d.title,
          content := d.content, metadata := mdStr d.metadata}
      else r)},
    fun db => {db with eventsFts := db.eventsFts ++ [⟨exRowid, d.title, d.content⟩]} ]

def runStmts (stmts : List (Db → Db)) (db : Db) : Db :=
  stmts.foldl (fun s f => f s) db

/-- The function `storeEvent(agentId, data)` (src/commands/store.js, lines 3–64). -/
def storeEvent (today : String) (now : Int) (agentId : String) (d : EventData)
    (db : Db) : Db × String × Int :=
  let db : Db := ensureAgent now agentId db
  let id := d.id.getD (generateId today (db.events.map (fun e => e.id)))
  let ts := d.timestamp.getD now
  match db.events.find? (fun e => e.id == id) with
  | some ex => (runStmts (storeEventUpdateStmts d id ts ex.rowid) db, id, ts)
  | none =>
    let rid := db.nextEventRowid
    let db : Db := {db with
      events := db.events ++ [⟨id, agentId, d.type, ts, d.title, d.content,
        mdStr d.metadata, "hot", rid⟩],
      nextEventRowid := rid + 1}
    -- SELECT rowid FROM events WHERE id = ? recovers the fresh rowid
    let rowid := ((db.events.find? (fun e => e.id == id)).map (fun e => e.rowid)).getD 0
    ({db with eventsFts := db.eventsFts ++ [⟨rowid, d.title, d.content⟩]}, id, ts)

/-- Payload of `store --type=entity`. -/
structure EntityData where
  id : Option String
  type : String
  name : String
  content : String
  metadata : Option String
  deriving DecidableEq, Repr

/-- The function `storeEntity(agentId, data)` (src/commands/store.js, lines 66–124).
On the update branch the `UPDATE` statement sets only
`content, updated_at, metadata` — not `name` or `type` — while the FTS
insert that follows uses the caller's `data.name`. -/
def storeEntity (now : Int) (agentId : String) (d : EntityData) (db : Db) :
    Db × String × Int :=
  let db : Db := ensureAgent now agentId db
  let id := d.id.getD (agentId ++ "/" ++ d.type ++ "s/" ++ d.name)
  match db.entities.find? (fun e => e.id == id) with
  | some ex =>
    let retained := db.entitiesFts.filter (fun doc => doc.rowid != ex.rowid)
    let db : Db := {db with entitiesFts := retained}
    let updated := db.entities.map (fun r =>
      if r.id == id then
        {r with
          content := d.content, updated_at := now, metadata := mdStr d.metadata}
      else r)
    let db : Db := {db with entities := updated}
    ({db with entitiesFts := db.entitiesFts ++ [⟨ex.rowid, d.name, d.content⟩]},
      id, now)
  | none =>
    let rid := db.nextEntityRowid
    let db : Db := {db with
      entities := db.entities ++ [⟨id, agentId, d.type, d.name, d.content, now,
        mdStr d.metadata, rid⟩],
      nextEntityRowid := rid + 1}
    let rowid := ((db.entities.find? (fun e => e.id == id)).map (fun e => e.rowid)).getD 0
    ({db with entitiesFts := db.entitiesFts ++ [⟨rowid, d.name, d.content⟩]}, id, now)

/-- Payload of `store --type=lesson`.  `source_lessons`-style JSON fields
are carried in stringified form. -/
structure LessonData where
  id : Option String
  type : String
  timestamp : Option Int
  title : String
  content : String
  source_event_id : Option String
  consolidated_to : Option String
  metadata : Option String
  deriving DecidableEq, Repr

/-- The function `storeLesson(agentId, data)` (src/commands/store.js, lines 126–190). -/
def storeLesson (today : String) (now : Int) (agentId : String) (d : LessonData)
    (db : Db) : Db × String × Int :=
  let db : Db := ensureAgent now agentId db
  let id := d.id.getD (generateId today (db.lessons.map (fun e => e.id)))
  let ts := d.timestamp.getD now
  match db.lessons.find? (fun e => e.id == id) with
  | some ex =>
    let retained := db.lessonsFts.filter (fun doc => doc.rowid != ex.rowid)
    let db : Db := {db with lessonsFts := retained}
    let updated := db.lessons.map (fun r =>
      if r.id == id then
        {r with
          type := d.type, timestamp := ts, title := d.title,
          content := d.content, source_event_id := d.source_event_id,
          consolidated_to := d.consolidated_to, metadata := mdStr d.metadata}
      else r)
    let db : Db := {db with lessons := updated}
    ({db with lessonsFts := db.lessonsFts ++ [⟨ex.rowid, d.title, d.content⟩]},
      id, ts)
  | none =>
    let rid := db.nextLessonRowid
    let db : Db := {db with
      lessons := db.lessons ++ [⟨id, agentId, d.type, ts, d.title, d.content,
        d.source_event_id, d.consolidated_to, mdStr d.metadata, rid⟩],
      nextLessonRowid := rid + 1}
    let rowid := ((db.lessons.find? (fun e => e.id == id)).map (fun e => e.rowid)).getD 0
    ({db with lessonsFts := db.lessonsFts ++ [⟨rowid, d.title, d.content⟩]}, id, ts)

/-- Payload of `store --type=principle`.  `source_lessons` carries
`JSON.stringify(data.source_lessons || [])`. -/
structure PrincipleData where
  id : Option String
  name : String
  content : String
  source_lessons : Option String
  metadata : Option String
  deriving DecidableEq, Repr

/-- The function `storePrinciple(agentId, data)` (src/commands/store.js, lines 192–230). -/
def storePrinciple (now : Int) (agentId : String) (d : PrincipleData) (db : Db) :
    Db × String × Int :=
  let db : Db := ensureAgent now agentId db
  let id := d.id.getD (agentId ++ "/" ++ d.name)
  match db.principles.find? (fun e => e.id == id) with
  | some _ =>
    ({db with principles := db.principles.map (fun r =>
      if r.id == id then
        {r with
          content := d.content, source_lessons := d.source_lessons.getD "[]",
          updated_at := now, metadata := mdStr d.metadata}
      else r)}, id, now)
  | none =>
    ({db with principles := db.principles ++ [⟨id, agentId, d.name, d.content,
      d.source_lessons.getD "[]", now, now, mdStr d.metadata⟩]}, id, now)

/-- Payload of `store --type=summary`. -/
structure SummaryData where
  id : Option String
  type : String
  period : String
  content : String
  event_count : Option Int
  deriving DecidableEq, Repr

/-- The function `storeSummary(agentId, data)` (src/commands/store.js, lines 232–256):
`INSERT … ON CONFLICT(id) DO UPDATE SET content = excluded.content,
event_count = excluded.event_count` — on conflict only those two columns
change. -/
def storeSummary (now : Int) (agentId : String) (d : SummaryData) (db : Db) :
    Db × String × Int :=
  let db : Db := ensureAgent now agentId db
  let id := d.id.getD (agentId ++ "/" ++ d.type ++ "s/" ++ d.period)
  if db.summaries.any (fun r => r.id == id) then
    ({db with summaries := db.summaries.map (fun r =>
      if r.id == id then
        {r with
          content := d.content, event_count := d.event_count.getD 0}
      else r)}, id, now)
  else
    ({db with summaries := db.summaries ++ [⟨id, agentId, d.type, d.period,
      d.content, d.event_count.getD 0, now⟩]}, id, now)

/-! ## State and session (src/unnamed/part_002 = src/commands/state.js,
src/commands/session.js) -/

/-- The function `getState(agentId)`: `ensureAgent` plus a `SELECT`; the read result is
the stored content or the `'' / null` default. -/
def getState (now : Int) (agentId : String) (db : Db) :
    Db × String × Option Int :=
  let db : Db := ensureAgent now agentId db
  match db.states.find? (fun s => s.agent_id == agentId) with
  | some s => (db, s.content, some s.updated_at)
  | none => (db, "", none)

/-- The function `setState(agentId, content)`: `ensureAgent` plus an upsert that
overwrites `content` and `updated_at`. -/
def setState (now : Int) (agentId : String) (content : String) (db : Db) :
    Db × Int :=
  let db : Db := ensureAgent now agentId db
  if db.states.any (fun s => s.agent_id == agentId) then
    ({db with states := db.states.map (fun s =>
      if s.agent_id == agentId then {s with content := content, updated_at := now}
      else s)}, now)
  else
    ({db with states := db.states ++ [⟨agentId, content, now⟩]}, now)

/-- The database effect of `getSession(agentId)`
(src/commands/session.js): `ensureAgent` followed by `SELECT`s only, so
the state change is exactly `ensureAgent`. -/
def getSessionDb (now : Int) (agentId : String) (db : Db) : Db :=
  ensureAgent now agentId db

/-! ## Recall (src/commands/recall.js)

`recall(agent, type, filters, limit)` dispatches on the kind string to the
five helpers below.  Each issues one
`SELECT * FROM … WHERE agent_id = ? [AND …] ORDER BY … LIMIT ?` and maps
the rows to response objects; that mapping projects each row's own fields
1:1 (dropping nothing that matters here), so the helpers return the
selected rows themselves.  All helpers leave the database untouched — they
execute only `SELECT`s. -/

/-- Element `b` comes after `a` in a descending `ORDER BY f`. -/
def descBy (f : α → Int) (a b : α) : Prop := f b ≤ f a

instance descBy.instDecidableRel (f : α → Int) : DecidableRel (descBy f) :=
  fun a b => inferInstanceAs (Decidable (f b ≤ f a))

instance descBy.instIsTotal (f : α → Int) : IsTotal α (descBy f) :=
  ⟨fun a b => Int.le_total (f b) (f a)⟩

instance descBy.instIsTrans (f : α → Int) : IsTrans α (descBy f) :=
  ⟨fun _ _ _ h h' => le_trans h' h⟩

structure EventFilters where
  tier : Option String
  event_type : Option String
  since : Option Int
  untilTs : Option Int  -- the source filter key is `until`, a Lean keyword
  deriving DecidableEq, Repr

def noEventFilters : EventFilters := ⟨none, none, none, none⟩

/-- The WHERE clause `recallEvents` builds (each filter optional, all
AND-combined). -/
def eventPred (agentId : String) (f : EventFilters) (e : EventRow) : Bool :=
  e.agent_id == agentId
    && (match f.tier with | none => true | some t => e.tier == t)
    && (match f.event_type with | none => true | some t => e.type == t)
    && (match f.since with | none => true | some s => s ≤ e.timestamp)
    && (match f.untilTs with | none => true | some u => e.timestamp ≤ u)

/-- The function `recallEvents` (src/commands/recall.js, lines 22–59):
`ORDER BY timestamp DESC LIMIT ?`. -/
def recallEvents (agentId : String) (f : EventFilters) (limit : Nat) (db : Db) :
    Db × List EventRow :=
  (db, ((db.events.filter (eventPred agentId f)).insertionSort
    (descBy (fun e : EventRow => e.timestamp))).take limit)

structure EntityFilters where
  entity_type : Option String
  deriving DecidableEq, Repr

def entityPred (agentId : String) (f : EntityFilters) (e : EntityRow) : Bool :=
  e.agent_id == agentId
    && (match f.entity_type with | none => true | some t => e.type == t)

/-- The function `recallEntities` (lines 61–82): `ORDER BY updated_at DESC LIMIT ?`. -/
def recallEntities (agentId : String) (f : EntityFilters) (limit : Nat) (db : Db) :
    Db × List EntityRow :=
  (db, ((db.entities.filter (entityPred agentId f)).insertionSort
    (descBy (fun e : EntityRow => e.updated_at))).take limit)

structure LessonFilters where
  lesson_type : Option String
  since : Option Int
  deriving DecidableEq, Repr

def lessonPred (agentId : String) (f : LessonFilters) (e : LessonRow) : Bool :=
  e.agent_id == agentId
    && (match f.lesson_type with | none => true | some t => e.type == t)
    && (match f.since with | none => true | some s => s ≤ e.timestamp)

/-- The function `recallLessons` (lines 84–112): `ORDER BY timestamp DESC LIMIT ?`. -/
def recallLessons (agentId : String) (f : LessonFilters) (limit : Nat) (db : Db) :
    Db × List LessonRow :=
  (db, ((db.lessons.filter (lessonPred agentId f)).insertionSort
    (descBy (fun e : LessonRow => e.timestamp))).take limit)

/-- The function `recallPrinciples` (lines 114–127): no filters,
`ORDER BY updated_at DESC LIMIT ?`. -/
def recallPrinciples (agentId : String) (limit : Nat) (db : Db) :
    Db × List PrincipleRow :=
  (db, ((db.principles.filter (fun e => e.agent_id == agentId)).insertionSort
    (descBy (fun e : PrincipleRow => e.updated_at))).take limit)

structure SummaryFilters where
  summary_type : Option String
  since : Option Int
  deriving DecidableEq, Repr

def summaryPred (agentId : String) (f : SummaryFilters) (e : SummaryRow) : Bool :=
  e.agent_id == agentId
    && (match f.summary_type with | none => true | some t => e.type == t)
    && (match f.since with | none => true | some s => s ≤ e.created_at)

/-- The function `recallSummaries` (lines 129–155): `ORDER BY created_at DESC LIMIT ?`. -/
def recallSummaries (agentId : String) (f : SummaryFilters) (limit : Nat) (db : Db) :
    Db × List SummaryRow :=
  (db, ((db.summaries.filter (summaryPred agentId f)).insertionSort
    (descBy (fun e : SummaryRow => e.created_at))).take limit)

/-! ## Search (src/commands/search.js)

FTS5's `MATCH` and `rank` are abstract parameters: `mtch q a b` decides
whether the document with indexed columns `a`, `b` matches query `q`, and
`rnk q a b` is its relevance score — better is lower, FTS5's convention
(the real rank is a float; only its order matters, so `Int` stands in).
Each per-kind query joins the FTS table to its content table on rowid,
restricts to the agent and to matching documents, orders by rank and
limits — then JavaScript maps each row to a result envelope. -/

structure SearchResult where
  type : String
  id : String
  title : String
  snippet : List Char
  score : Int
  timestamp : Option Int
  updated_at : Option Int
  deriving DecidableEq, Repr

def ftsJoinEvents (db : Db) : List (FtsDoc × EventRow) :=
  db.eventsFts.filterMap (fun doc =>
    (db.events.find? (fun e => e.rowid == doc.rowid)).map (fun e => (doc, e)))

def ftsJoinEntities (db : Db) : List (FtsDoc × EntityRow) :=
  db.entitiesFts.filterMap (fun doc =>
    (db.entities.find? (fun e => e.rowid == doc.rowid)).map (fun e => (doc, e)))

def ftsJoinLessons (db : Db) : List (FtsDoc × LessonRow) :=
  db.lessonsFts.filterMap (fun doc =>
    (db.lessons.find? (fun e => e.rowid == doc.rowid)).map (fun e => (doc, e)))

section Search

variable (mtch : String → String → String → Bool)
variable (rnk : String → String → String → Int)

/-- The clause `WHERE e.agent_id = ? AND events_fts MATCH ?` over the join. -/
def eventHitRows (agentId q : String) (db : Db) : List (FtsDoc × EventRow) :=
  (ftsJoinEvents db).filter (fun p => p.2.agent_id == agentId && mtch q p.1.colA p.1.colB)

def entityHitRows (agentId q : String) (db : Db) : List (FtsDoc × EntityRow) :=
  (ftsJoinEntities db).filter (fun p => p.2.agent_id == agentId && mtch q p.1.colA p.1.colB)

def lessonHitRows (agentId q : String) (db : Db) : List (FtsDoc × LessonRow) :=
  (ftsJoinLessons db).filter (fun p => p.2.agent_id == agentId && mtch q p.1.colA p.1.colB)

/-- The envelope with kind tag 'event', id, title, snippet, score, timestamp. -/
def eventEnvelope (q : String) (p : FtsDoc × EventRow) : SearchResult :=
  ⟨"event", p.2.id, p.2.title, extractSnippet p.2.content.data q.data,
    rnk q p.1.colA p.1.colB, some p.2.timestamp, none⟩

/-- The envelope with kind tag 'entity'; its title field carries `e.name`. -/
def entityEnvelope (q : String) (p : FtsDoc × EntityRow) : SearchResult :=
  ⟨"entity", p.2.id, p.2.name, extractSnippet p.2.content.data q.data,
    rnk q p.1.colA p.1.colB, none, some p.2.updated_at⟩

/-- The envelope with kind tag 'lesson', id, title, snippet, score, timestamp. -/
def lessonEnvelope (q : String) (p : FtsDoc × LessonRow) : SearchResult :=
  ⟨"lesson", p.2.id, p.2.title, extractSnippet p.2.content.data q.data,
    rnk q p.1.colA p.1.colB, some p.2.timestamp, none⟩

/-- One per-kind block of `search`: the SQL `ORDER BY rank LIMIT ?`
followed by the JavaScript envelope mapping. -/
def searchEventsPart (agentId q : String) (limit : Nat) (db : Db) : List SearchResult :=
  (topK (fun p => rnk q p.1.colA p.1.colB) limit (eventHitRows mtch agentId q db)).map
    (eventEnvelope rnk q)

def searchEntitiesPart (agentId q : String) (limit : Nat) (db : Db) : List SearchResult :=
  (topK (fun p => rnk q p.1.colA p.1.colB) limit (entityHitRows mtch agentId q db)).map
    (entityEnvelope rnk q)

def searchLessonsPart (agentId q : String) (limit : Nat) (db : Db) : List SearchResult :=
  (topK (fun p => rnk q p.1.colA p.1.colB) limit (lessonHitRows mtch agentId q db)).map
    (lessonEnvelope rnk q)

/-- The function `search(agentId, queryText, types, limit)` (src/commands/search.js,
lines 3–74): collect the requested kinds in fixed order (events, entities,
lessons), then `results.sort((a, b) => a.score - b.score).slice(0, limit)`.
Only `SELECT`s run, so the database comes back unchanged. -/
def search (agentId q : String) (types : List String) (limit : Nat) (db : Db) :
    Db × List SearchResult :=
  let r1 := if types.contains "events" then searchEventsPart mtch rnk agentId q limit db else []
  let r2 := if types.contains "entities" then searchEntitiesPart mtch rnk agentId q limit db else []
  let r3 := if types.contains "lessons" then searchLessonsPart mtch rnk agentId q limit db else []
  (db, topK (fun r : SearchResult => r.score) limit (r1 ++ r2 ++ r3))

/-- Every per-kind hit of the requested kinds, with no per-kind limit, in
collection order. -/
def searchAllHits (agentId q : String) (types : List String) (db : Db) :
    List SearchResult :=
  (if types.contains "events" then
    (eventHitRows mtch agentId q db).map (eventEnvelope rnk q) else []) ++
  (if types.contains "entities" then
    (entityHitRows mtch agentId q db).map (entityEnvelope rnk q) else []) ++
  (if types.contains "lessons" then
    (lessonHitRows mtch agentId q db).map (lessonEnvelope rnk q) else [])

/-- Modelled from the spec: collect every per-kind hit (no per-kind
limit), merge across kinds, sort ascending by score, truncate once to the
overall limit. -/
def searchSpec (agentId q : String) (types : List String) (limit : Nat) (db : Db) :
    List SearchResult :=
  topK (fun r : SearchResult => r.score) limit (searchAllHits mtch rnk agentId q types db)

end Search

/-! ## Helper lemmas about the operations -/

theorem ensureAgent_events (now : Int) (a : String) (db : Db) :
    (ensureAgent now a db).events = db.events := by
  unfold ensureAgent
  cases db.agents.find? (fun r => r.id == a) <;> rfl

theorem ensureAgent_entities (now : Int) (a : String) (db : Db) :
    (ensureAgent now a db).entities = db.entities := by
  unfold ensureAgent
  cases db.agents.find? (fun r => r.id == a) <;> rfl

theorem ensureAgent_summaries (now : Int) (a : String) (db : Db) :
    (ensureAgent now a db).summaries = db.summaries := by
  unfold ensureAgent
  cases db.agents.find? (fun r => r.id == a) <;> rfl

/-- Lookup after an id-keyed `UPDATE`: the first row with the id comes
back updated. -/
theorem find?_map_upd {β : Type} (idOf : β → String) (upd : β → β)
    (hid : ∀ r, idOf (upd r) = idOf r) (id : String) :
    ∀ (l : List β) (e : β), l.find? (fun r => idOf r == id) = some e →
      (l.map (fun r => if idOf r == id then upd r else r)).find?
        (fun r => idOf r == id) = some (upd e)
  | [], e, h => by simp at h
  | a :: t, e, h => by
    rw [List.find?_cons] at h
    cases ha : (idOf a == id) with
    | true =>
      rw [ha] at h
      simp only [cond_true] at h
      cases h
      rw [List.map_cons, if_pos ha, List.find?_cons]
      have : (idOf (upd a) == id) = true := by rw [hid]; exact ha
      rw [this]
    | false =>
      rw [ha] at h
      simp only [cond_false] at h
      rw [List.map_cons, if_neg (by simp [ha]), List.find?_cons, ha]
      simp only [cond_false]
      exact find?_map_upd idOf upd hid id t e h

/-- An id-keyed `UPDATE` touches no row when no row has the id. -/
theorem filter_map_upd_none {β : Type} (idOf : β → String) (upd : β → β)
    (id : String) :
    ∀ (l : List β), (∀ r ∈ l, (idOf r == id) = false) →
      (l.map (fun r => if idOf r == id then upd r else r)).filter
        (fun r => idOf r == id) = []
  | [], _ => rfl
  | a :: t, hall => by
    have ha : (idOf a == id) = false := hall a (List.mem_cons_self _ _)
    rw [List.map_cons, if_neg (by simp [ha]), List.filter_cons_of_neg (by simp [ha])]
    exact filter_map_upd_none idOf upd id t
      (fun r hr => hall r (List.mem_cons_of_mem _ hr))

/-! ## C3 — the tiering pass -/

/-- The classification exactly as claim C3 words it. -/
def specTier (now ts : Int) : String :=
  if ts < now - 30 * 24 * 60 * 60 * 1000 then "cold"
  else if ts < now - 72 * 60 * 60 * 1000 then "warm"
  else "hot"

/-- C3: after a tiering pass at `now`, every event's tier is exactly
`cold` for `timestamp < now − 30 d`, else `warm` for
`timestamp < now − 72 h`, else `hot`; the boundary is half-open
(`now − 72 h` itself is hot, `now − 30 d` itself is warm); and the result
does not depend on the tier stored before the pass. -/
theorem updateTiers_classifies (now : Int) (db : Db) (t' : String) :
    (updateTiers now db).events =
        db.events.map (fun e => {e with tier := specTier now e.timestamp}) ∧
      specTier now (now - 72 * 60 * 60 * 1000) = "hot" ∧
      specTier now (now - 30 * 24 * 60 * 60 * 1000) = "warm" ∧
      (updateTiers now
          {db with events := db.events.map (fun e => {e with tier := t'})}).events =
        (updateTiers now db).events := by
  refine ⟨rfl, ?_, ?_, ?_⟩
  · unfold specTier
    rw [if_neg (by omega), if_neg (by omega)]
  · unfold specTier
    rw [if_neg (by omega), if_pos (by omega)]
  · simp only [updateTiers, List.map_map]
    rfl

/-! ## C10 — a re-store of an existing event id leaves its tier alone -/

/-- C10: when `storeEvent` is called with an id that already exists, the
stored row afterwards is the old row with exactly `type`, `timestamp`,
`title`, `content`, `metadata` replaced — `tier` (and `agent_id`, `rowid`)
keep their previous values; in particular the tier is not reset to the
creation default `hot`. -/
theorem storeEvent_update_frame (today : String) (now : Int) (agentId : String)
    (d : EventData) (db : Db) (id : String) (e : EventRow)
    (hdid : d.id = some id)
    (hfind : db.events.find? (fun r => r.id == id) = some e) :
    ((storeEvent today now agentId d db).1.events.find? (fun r => r.id == id)) =
      some {e with
        type := d.type, timestamp := d.timestamp.getD now,
        title := d.title, content := d.content, metadata := mdStr d.metadata} := by
  have hens : (ensureAgent now agentId db).events = db.events :=
    ensureAgent_events now agentId db
  simp only [storeEvent, hdid, Option.getD_some, hens, hfind]
  simp only [runStmts, storeEventUpdateStmts, List.foldl_cons, List.foldl_nil]
  exact find?_map_upd (fun r => r.id)
    (fun r => {r with
      type := d.type, timestamp := d.timestamp.getD now, title := d.title,
      content := d.content, metadata := mdStr d.metadata})
    (fun _ => rfl) id _ e (hens ▸ hfind)

/-- Witness for C10 at a concrete state. -/
theorem storeEvent_update_frame_witness :
    (((storeEvent "2026-10-11" 5 "a"
        ⟨some "e1", "t2", some 7, "T2", "C2", none⟩
        {emptyDb with
          events := [⟨"e1", "a", "t1", 0, "T1", "C1", jsonEmptyObj, "warm", 0⟩],
          eventsFts := [⟨0, "T1", "C1"⟩],
          nextEventRowid := 1}).1.events.find? (fun r => r.id == "e1")) =
      some ⟨"e1", "a", "t2", 7, "T2", "C2", jsonEmptyObj, "warm", 0⟩) :=
  storeEvent_update_frame "2026-10-11" 5 "a" _ _ "e1"
    ⟨"e1", "a", "t1", 0, "T1", "C1", jsonEmptyObj, "warm", 0⟩ rfl (by decide)

/-! ## C8 — summary upsert keeps the first write's `created_at` -/

/-- C8: two `storeSummary` calls resolving to the same id leave exactly
one row for that id: the second call's `content` and `event_count`, and
the first call's `agent_id`, `type`, `period` and `created_at` (the
first-write timestamp wins). -/
theorem storeSummary_upsert (now1 now2 : Int) (a1 a2 : String)
    (d1 d2 : SummaryData) (db : Db) (id : String)
    (hid1 : d1.id.getD (a1 ++ "/" ++ d1.type ++ "s/" ++ d1.period) = id)
    (hid2 : d2.id.getD (a2 ++ "/" ++ d2.type ++ "s/" ++ d2.period) = id)
    (habs : db.summaries.all (fun r => !(r.id == id)) = true) :
    ((storeSummary now2 a2 d2 (storeSummary now1 a1 d1 db).1).1.summaries.filter
        (fun r => r.id == id)) =
      [⟨id, a1, d1.type, d1.period, d2.content, d2.event_count.getD 0, now1⟩] := by
  have hall : ∀ r ∈ db.summaries, (r.id == id) = false := by
    intro r hr
    have := List.all_eq_true.1 habs r hr
    simpa using this
  have hany : db.summaries.any (fun r => r.id == id) = false := by
    rw [List.any_eq_false]
    intro r hr
    simp [hall r hr]
  have hens1 : (ensureAgent now1 a1 db).summaries = db.summaries :=
    ensureAgent_summaries _ _ _
  -- first call: the id is absent, so a fresh row is appended
  have h1 : (storeSummary now1 a1 d1 db).1.summaries =
      db.summaries ++ [⟨id, a1, d1.type, d1.period, d1.content,
        d1.event_count.getD 0, now1⟩] := by
    simp only [storeSummary, hid1, hens1, hany, Bool.false_eq_true, if_false]
  -- second call: the id is present, so the upsert takes the UPDATE arm
  set s1 : Db := (storeSummary now1 a1 d1 db).1 with hs1
  have hens2 : (ensureAgent now2 a2 s1).summaries = s1.summaries :=
    ensureAgent_summaries _ _ _
  have hany2 : ((ensureAgent now2 a2 s1).summaries.any
      (fun r => r.id == id)) = true := by
    rw [hens2, h1, List.any_append]
    simp
  simp only [storeSummary, hid2, hany2, if_true]
  rw [hens2, h1, List.map_append, List.filter_append,
    filter_map_upd_none (fun r : SummaryRow => r.id)
      (fun r => {r with content := d2.content, event_count := d2.event_count.getD 0})
      id db.summaries hall]
  simp

/-- Witness for C8 at a concrete state. -/
theorem storeSummary_upsert_witness :
    ((storeSummary 9 "a" ⟨some "s1", "weekly", "2026-W41", "c2", some 4⟩
        (storeSummary 3 "a" ⟨some "s1", "weekly", "2026-W41", "c1", some 2⟩
          emptyDb).1).1.summaries.filter (fun r => r.id == "s1")) =
      [⟨"s1", "a", "weekly", "2026-W41", "c2", 4, 3⟩] :=
  storeSummary_upsert 3 9 "a" "a" _ _ emptyDb "s1" rfl rfl (by decide)

/-! ## C4 — id generation -/

/-- C4 counterexample: with the day's suffixes 999 and 1000 both present,
`ORDER BY id DESC` picks `…-999` (byte order), so the generator re-issues
the already-existing id `2026-10-11-1000` — a collision — instead of
1 + the highest numeric suffix (1001). -/
theorem generateId_collision :
    generateId "2026-10-11" ["2026-10-11-999", "2026-10-11-1000"] ∈
        ["2026-10-11-999", "2026-10-11-1000"] ∧
      generateId "2026-10-11" ["2026-10-11-999", "2026-10-11-1000"] ≠
        "2026-10-11-1001" := by decide

/-- C4 amended: the sequence number is 1 + the numeric suffix of the
byte-wise greatest id carrying today's prefix.  While every such suffix is
a zero-padded three-digit number (≤ 999 ids per day), this equals 1 + the
highest numeric suffix, each id-less store increases the suffix by exactly
one, and the generated id is fresh; with suffixes beyond 999 in play the
original claim fails (see the counterexample). -/
theorem generateId_amended (date : String) (ids : List String) (ns : List Nat)
    (h999 : ∀ n ∈ ns, n ≤ 999)
    (hm : ids.filter (fun i => (date ++ "-").data.isPrefixOf i.data) =
      ns.map (mkId date)) :
    generateId date ids = mkId date (1 + ns.foldl Nat.max 0) ∧
      (ns.foldl Nat.max 0 < 999 → mkId date (1 + ns.foldl Nat.max 0) ∉ ids) := by
  have hlt : ∀ n ∈ ns, n < 1000 := fun n hn => by have := h999 n hn; omega
  have hNle : ns.foldl Nat.max 0 ≤ 999 :=
    foldl_max_le ns 0 999 (by omega) h999
  have hfresh : ns.foldl Nat.max 0 < 999 →
      mkId date (1 + ns.foldl Nat.max 0) ∉ ids := by
    intro hN hmem
    have hsuc : 1 + ns.foldl Nat.max 0 < 1000 := by omega
    have hpref := isPrefixOf_mkId date hsuc
    have hmemf : mkId date (1 + ns.foldl Nat.max 0) ∈
        ids.filter (fun i => (date ++ "-").data.isPrefixOf i.data) :=
      List.mem_filter.2 ⟨hmem, hpref⟩
    rw [hm] at hmemf
    obtain ⟨n', hn', heq⟩ := List.mem_map.1 hmemf
    have := mkId_inj date (hlt n' hn') hsuc heq
    have hb := (le_foldl_max ns 0).2 n' hn'
    omega
  refine ⟨?_, hfresh⟩
  rcases ns with _ | ⟨n, rest⟩
  · have hq : sqlMaxId date ids = none := by
      rw [sqlMaxId, hm]
      rfl
    simp only [generateId, hq]
    rfl
  · have hn : n < 1000 := hlt n (List.mem_cons_self _ _)
    have hNlt : rest.foldl Nat.max n < 1000 :=
      Nat.lt_of_le_of_lt (foldl_max_le rest n 999
        (h999 n (List.mem_cons_self _ _))
        (fun x hx => h999 x (List.mem_cons_of_mem _ hx))) (by omega)
    have hq : sqlMaxId date ids = some (mkId date (rest.foldl Nat.max n)) := by
      rw [sqlMaxId, hm, List.map_cons, List.foldl_cons]
      exact sqlMaxId_fold date rest
        (fun x hx => hlt x (List.mem_cons_of_mem _ hx)) n hn
    have hfold : (n :: rest).foldl Nat.max 0 = rest.foldl Nat.max n := by
      rw [List.foldl_cons]
      congr 1
      exact max_eq_right (Nat.zero_le n)
    simp only [generateId, hq, lastDashSeg_mkId date hNlt, parseIntJS_threeDig hNlt,
      hfold, Nat.add_comm]

/-- Witness for C4's amended statement at a concrete state. -/
theorem generateId_amended_witness :
    generateId "2026-10-11" ["2026-10-11-001", "2026-10-11-002"] =
        mkId "2026-10-11" (1 + [1, 2].foldl Nat.max 0) ∧
      ([1, 2].foldl Nat.max 0 < 999 →
        mkId "2026-10-11" (1 + [1, 2].foldl Nat.max 0) ∉
          ["2026-10-11-001", "2026-10-11-002"]) :=
  generateId_amended "2026-10-11" ["2026-10-11-001", "2026-10-11-002"] [1, 2]
    (by decide) (by decide)

/-! ## C7 — snippet extraction -/

/-- C7: the function `extractSnippet` computes exactly the specification's rule — the
window is centred on the least occurrence position over all
whitespace-split query terms (case-insensitively), clamped, with an
ellipsis on each non-boundary side, and falls back to the first 150
characters plus a trailing ellipsis when no term occurs. -/
theorem extractSnippet_eq_spec (text queryText : List Char) :
    extractSnippet text queryText = specSnippet text queryText := by
  have hfp : findPos (lowerL text) (splitWs (lowerL queryText)) =
      minPos ((splitWs (lowerL queryText)).filterMap
        (fun t => idxOf t (lowerL text))) := by
    rw [findPos, findPos_eq_minPos (lowerL text) (splitWs (lowerL queryText)) none]
    cases minPos ((splitWs (lowerL queryText)).filterMap
      (fun t => idxOf t (lowerL text))) <;> rfl
  simp only [extractSnippet, specSnippet, hfp]
  cases hmp : minPos ((splitWs (lowerL queryText)).filterMap
      (fun t => idxOf t (lowerL text))) with
  | none => rfl
  | some pos =>
    simp only
    rw [min_comm (pos + 75) text.length]
    have hle : min text.length (pos + 75) ≤ text.length := min_le_left _ _
    by_cases hc : min text.length (pos + 75) < text.length
    · have hc' : min text.length (pos + 75) ≠ text.length := ne_of_lt hc
      rw [if_pos hc, if_pos hc']
      by_cases hs : 0 < pos - 75
      · rw [if_pos hs, if_pos (by omega : pos - 75 ≠ 0)]
      · rw [if_neg hs, if_neg (by omega : ¬ pos - 75 ≠ 0)]
    · have hc' : ¬ min text.length (pos + 75) ≠ text.length := by
        intro hne
        exact hne (le_antisymm hle (Nat.le_of_not_lt hc))
      rw [if_neg hc, if_neg hc']
      by_cases hs : 0 < pos - 75
      · rw [if_pos hs, if_pos (by omega : pos - 75 ≠ 0)]
      · rw [if_neg hs, if_neg (by omega : ¬ pos - 75 ≠ 0)]

/-! ## C1 — index/row consistency on entity update -/

/-- C1, evaluated at the failing input: store entity id `x` with name
`alpha`, then store id `x` again with name `beta`.  The `UPDATE` does not
touch the row's `name`, but the FTS insert uses the caller's new name, so
afterwards the entities row says `alpha` while the index document says
`beta` — the index does not match the record's indexed fields. -/
theorem storeEntity_update_name_desync :
    (((storeEntity 1 "a" ⟨some "x", "tool", "beta", "c2", none⟩
        (storeEntity 0 "a" ⟨some "x", "tool", "alpha", "c1", none⟩
          emptyDb).1).1.entities.find? (fun e => e.id == "x")).map
            (fun e => e.name)) = some "alpha" ∧
      (((storeEntity 1 "a" ⟨some "x", "tool", "beta", "c2", none⟩
        (storeEntity 0 "a" ⟨some "x", "tool", "alpha", "c1", none⟩
          emptyDb).1).1.entitiesFts.find? (fun doc => doc.rowid == 0)).map
            (fun doc => doc.colA)) = some "beta" ∧
      ("alpha" : String) ≠ "beta" := by decide

/-! ## C2 — the store's statements are not one failure unit -/

/-- C2, evaluated at the failing input: prepare event `e1`, then run only
the first statement of `storeEvent`'s update branch — the state after the
FTS retract has committed and the primary `UPDATE` has failed.  No
transaction wraps the branch (each statement autocommits), so the events
row is still present with its old values while the index document for its
rowid is gone, and the database differs from the pre-store state even
though the store failed. -/
theorem storeEvent_fault_desync :
    ((storeEvent "2026-10-11" 0 "a" ⟨some "e1", "t", some 0, "T1", "C1", none⟩
        emptyDb).1.eventsFts.find? (fun doc => doc.rowid == 0)) =
      some ⟨0, "T1", "C1"⟩ ∧
    (runStmts ((storeEventUpdateStmts ⟨some "e1", "t", some 5, "T2", "C2", none⟩
        "e1" 5 0).take 1)
      (storeEvent "2026-10-11" 0 "a" ⟨some "e1", "t", some 0, "T1", "C1", none⟩
        emptyDb).1).events.find? (fun r => r.id == "e1") =
      some ⟨"e1", "a", "t", 0, "T1", "C1", jsonEmptyObj, "hot", 0⟩ ∧
    (runStmts ((storeEventUpdateStmts ⟨some "e1", "t", some 5, "T2", "C2", none⟩
        "e1" 5 0).take 1)
      (storeEvent "2026-10-11" 0 "a" ⟨some "e1", "t", some 0, "T1", "C1", none⟩
        emptyDb).1).eventsFts.find? (fun doc => doc.rowid == 0) = none ∧
    runStmts ((storeEventUpdateStmts ⟨some "e1", "t", some 5, "T2", "C2", none⟩
        "e1" 5 0).take 1)
      (storeEvent "2026-10-11" 0 "a" ⟨some "e1", "t", some 0, "T1", "C1", none⟩
        emptyDb).1 ≠
      (storeEvent "2026-10-11" 0 "a" ⟨some "e1", "t", some 0, "T1", "C1", none⟩
        emptyDb).1 := by decide

/-! ## C9 — implicit agent creation -/

/-- The lookup `SELECT id FROM agents WHERE id = ?` turned membership test. -/
def hasAgent (agentId : String) (agents : List AgentRow) : Bool :=
  agents.any (fun a => a.id == agentId)

/-- C9 counterexample: a `recall` on a brand-new agent completes — it
returns the empty list and leaves the database exactly as it was — without
creating the agent: `recall` never calls `ensureAgent` and executes only
`SELECT`s.  The claim's "after any such operation naming agent A
completes, A exists in the agents table" is false for recall (and
likewise for search). -/
theorem recall_does_not_create_agent :
    (recallEvents "alice" noEventFilters 20 emptyDb).1 = emptyDb ∧
      (recallEvents "alice" noEventFilters 20 emptyDb).2 = [] ∧
      hasAgent "alice" (recallEvents "alice" noEventFilters 20 emptyDb).1.agents
        = false := by decide

theorem hasAgent_ensureAgent (now : Int) (A : String) (db : Db) :
    hasAgent A (ensureAgent now A db).agents = true := by
  unfold hasAgent ensureAgent
  cases hf : db.agents.find? (fun a => a.id == A) with
  | some a =>
    have hp := List.find?_some hf
    exact List.any_eq_true.2 ⟨a, List.mem_of_find?_eq_some hf, hp⟩
  | none =>
    rw [List.any_append]
    simp

theorem hasAgent_ensureAgent_mono (now : Int) (A X : String) (db : Db)
    (h : hasAgent X db.agents = true) :
    hasAgent X (ensureAgent now A db).agents = true := by
  unfold ensureAgent
  cases db.agents.find? (fun a => a.id == A) with
  | some a => exact h
  | none =>
    unfold hasAgent at h ⊢
    rw [List.any_append, h]
    rfl

theorem storeEvent_agents (today : String) (now : Int) (A : String)
    (d : EventData) (db : Db) :
    (storeEvent today now A d db).1.agents = (ensureAgent now A db).agents := by
  simp only [storeEvent]
  split <;> rfl

theorem storeEntity_agents (now : Int) (A : String) (d : EntityData) (db : Db) :
    (storeEntity now A d db).1.agents = (ensureAgent now A db).agents := by
  simp only [storeEntity]
  split <;> rfl

theorem storeLesson_agents (today : String) (now : Int) (A : String)
    (d : LessonData) (db : Db) :
    (storeLesson today now A d db).1.agents = (ensureAgent now A db).agents := by
  simp only [storeLesson]
  split <;> rfl

theorem storePrinciple_agents (now : Int) (A : String) (d : PrincipleData) (db : Db) :
    (storePrinciple now A d db).1.agents = (ensureAgent now A db).agents := by
  simp only [storePrinciple]
  split <;> rfl

theorem storeSummary_agents (now : Int) (A : String) (d : SummaryData) (db : Db) :
    (storeSummary now A d db).1.agents = (ensureAgent now A db).agents := by
  simp only [storeSummary]
  split <;> rfl

theorem setState_agents (now : Int) (A : String) (c : String) (db : Db) :
    (setState now A c db).1.agents = (ensureAgent now A db).agents := by
  simp only [setState]
  split <;> rfl

theorem getState_agents (now : Int) (A : String) (db : Db) :
    (getState now A db).1.agents = (ensureAgent now A db).agents := by
  simp only [getState]
  split <;> rfl

/-- C9 amended: agents are implicitly created with no explicit
registration step by every write (store of any kind, `set_state`) and by
`get_state` and `get_session` — but not by `recall` or `search`, whose
database effect is identity (they run only `SELECT`s); and no core
operation ever removes an agent (every modelled operation preserves
existing agents). -/
theorem agent_creation_amended (today : String) (now : Int) (db : Db)
    (A X : String) (de : EventData) (dn : EntityData) (dl : LessonData)
    (dp : PrincipleData) (ds : SummaryData) (content q : String)
    (fe : EventFilters) (lim : Nat) (types : List String)
    (mtch : String → String → String → Bool)
    (rnk : String → String → String → Int)
    (hX : hasAgent X db.agents = true) :
    (hasAgent A (storeEvent today now A de db).1.agents = true ∧
      hasAgent A (storeEntity now A dn db).1.agents = true ∧
      hasAgent A (storeLesson today now A dl db).1.agents = true ∧
      hasAgent A (storePrinciple now A dp db).1.agents = true ∧
      hasAgent A (storeSummary now A ds db).1.agents = true ∧
      hasAgent A (setState now A content db).1.agents = true ∧
      hasAgent A (getState now A db).1.agents = true ∧
      hasAgent A (getSessionDb now A db).agents = true) ∧
    ((recallEvents A fe lim db).1 = db ∧
      (search mtch rnk A q types lim db).1 = db) ∧
    (hasAgent X (storeEvent today now A de db).1.agents = true ∧
      hasAgent X (storeEntity now A dn db).1.agents = true ∧
      hasAgent X (storeLesson today now A dl db).1.agents = true ∧
      hasAgent X (storePrinciple now A dp db).1.agents = true ∧
      hasAgent X (storeSummary now A ds db).1.agents = true ∧
      hasAgent X (setState now A content db).1.agents = true ∧
      hasAgent X (getState now A db).1.agents = true ∧
      hasAgent X (getSessionDb now A db).agents = true ∧
      hasAgent X (updateTiers now db).agents = true) := by
  refine ⟨⟨?_, ?_, ?_, ?_, ?_, ?_, ?_, ?_⟩, ⟨rfl, rfl⟩, ?_, ?_, ?_, ?_, ?_, ?_, ?_, ?_, ?_⟩
  · rw [storeEvent_agents]; exact hasAgent_ensureAgent now A db
  · rw [storeEntity_agents]; exact hasAgent_ensureAgent now A db
  · rw [storeLesson_agents]; exact hasAgent_ensureAgent now A db
  · rw [storePrinciple_agents]; exact hasAgent_ensureAgent now A db
  · rw [storeSummary_agents]; exact hasAgent_ensureAgent now A db
  · rw [setState_agents]; exact hasAgent_ensureAgent now A db
  · rw [getState_agents]; exact hasAgent_ensureAgent now A db
  · exact hasAgent_ensureAgent now A db
  · rw [storeEvent_agents]; exact hasAgent_ensureAgent_mono now A X db hX
  · rw [storeEntity_agents]; exact hasAgent_ensureAgent_mono now A X db hX
  · rw [storeLesson_agents]; exact hasAgent_ensureAgent_mono now A X db hX
  · rw [storePrinciple_agents]; exact hasAgent_ensureAgent_mono now A X db hX
  · rw [storeSummary_agents]; exact hasAgent_ensureAgent_mono now A X db hX
  · rw [setState_agents]; exact hasAgent_ensureAgent_mono now A X db hX
  · rw [getState_agents]; exact hasAgent_ensureAgent_mono now A X db hX
  · exact hasAgent_ensureAgent_mono now A X db hX
  · exact hX

/-- Witness for C9's amended statement at a concrete state. -/
theorem agent_creation_amended_witness :
    (hasAgent "a" (storeEvent "2026-10-11" 0 "a"
        ⟨some "e1", "t", some 0, "T", "C", none⟩
        {emptyDb with agents := [⟨"x", 0⟩]}).1.agents = true ∧
      hasAgent "a" (storeEntity 0 "a" ⟨some "n1", "tool", "n", "C", none⟩
        {emptyDb with agents := [⟨"x", 0⟩]}).1.agents = true ∧
      hasAgent "a" (storeLesson "2026-10-11" 0 "a"
        ⟨some "l1", "t", some 0, "T", "C", none, none, none⟩
        {emptyDb with agents := [⟨"x", 0⟩]}).1.agents = true ∧
      hasAgent "a" (storePrinciple 0 "a" ⟨some "p1", "n", "C", none, none⟩
        {emptyDb with agents := [⟨"x", 0⟩]}).1.agents = true ∧
      hasAgent "a" (storeSummary 0 "a" ⟨some "s1", "weekly", "W1", "C", none⟩
        {emptyDb with agents := [⟨"x", 0⟩]}).1.agents = true ∧
      hasAgent "a" (setState 0 "a" "st" {emptyDb with agents := [⟨"x", 0⟩]}).1.agents
        = true ∧
      hasAgent "a" (getState 0 "a" {emptyDb with agents := [⟨"x", 0⟩]}).1.agents
        = true ∧
      hasAgent "a" (getSessionDb 0 "a" {emptyDb with agents := [⟨"x", 0⟩]}).agents
        = true) ∧
    ((recallEvents "a" noEventFilters 20 {emptyDb with agents := [⟨"x", 0⟩]}).1 =
        {emptyDb with agents := [⟨"x", 0⟩]} ∧
      (search (fun _ _ _ => true) (fun _ _ _ => 0) "a" "q" ["events"] 10
        {emptyDb with agents := [⟨"x", 0⟩]}).1 = {emptyDb with agents := [⟨"x", 0⟩]}) ∧
    (hasAgent "x" (storeEvent "2026-10-11" 0 "a"
        ⟨some "e1", "t", some 0, "T", "C", none⟩
        {emptyDb with agents := [⟨"x", 0⟩]}).1.agents = true ∧
      hasAgent "x" (storeEntity 0 "a" ⟨some "n1", "tool", "n", "C", none⟩
        {emptyDb with agents := [⟨"x", 0⟩]}).1.agents = true ∧
      hasAgent "x" (storeLesson "2026-10-11" 0 "a"
        ⟨some "l1", "t", some 0, "T", "C", none, none, none⟩
        {emptyDb with agents := [⟨"x", 0⟩]}).1.agents = true ∧
      hasAgent "x" (storePrinciple 0 "a" ⟨some "p1", "n", "C", none, none⟩
        {emptyDb with agents := [⟨"x", 0⟩]}).1.agents = true ∧
      hasAgent "x" (storeSummary 0 "a" ⟨some "s1", "weekly", "W1", "C", none⟩
        {emptyDb with agents := [⟨"x", 0⟩]}).1.agents = true ∧
      hasAgent "x" (setState 0 "a" "st" {emptyDb with agents := [⟨"x", 0⟩]}).1.agents
        = true ∧
      hasAgent "x" (getState 0 "a" {emptyDb with agents := [⟨"x", 0⟩]}).1.agents
        = true ∧
      hasAgent "x" (getSessionDb 0 "a" {emptyDb with agents := [⟨"x", 0⟩]}).agents
        = true ∧
      hasAgent "x" (updateTiers 0 {emptyDb with agents := [⟨"x", 0⟩]}).agents
        = true) :=
  agent_creation_amended "2026-10-11" 0 {emptyDb with agents := [⟨"x", 0⟩]}
    "a" "x" ⟨some "e1", "t", some 0, "T", "C", none⟩
    ⟨some "n1", "tool", "n", "C", none⟩
    ⟨some "l1", "t", some 0, "T", "C", none, none, none⟩
    ⟨some "p1", "n", "C", none, none⟩
    ⟨some "s1", "weekly", "W1", "C", none⟩ "st" "q" noEventFilters 20 ["events"]
    (fun _ _ _ => true) (fun _ _ _ => 0) (by decide)

/-! ## C5 — tenant isolation -/

/-- Rows surviving a recall pipeline (filter, sort, limit) come from the
table and satisfy the WHERE clause. -/
theorem mem_recall_pipeline {p : β → Bool} {k : β → Int} {n : Nat}
    {l : List β} {x : β}
    (hx : x ∈ ((l.filter p).insertionSort (descBy k)).take n) :
    x ∈ l ∧ p x = true := by
  have h1 : x ∈ (l.filter p).insertionSort (descBy k) := List.mem_of_mem_take hx
  have h2 : x ∈ l.filter p := (List.mem_insertionSort _).1 h1
  exact ⟨(List.mem_filter.1 h2).1, (List.mem_filter.1 h2).2⟩

theorem eventPred_agent {A : String} {f : EventFilters} {e : EventRow}
    (h : eventPred A f e = true) : e.agent_id = A := by
  simp only [eventPred, Bool.and_eq_true, beq_iff_eq] at h
  exact h.1.1.1.1

theorem entityPred_agent {A : String} {f : EntityFilters} {e : EntityRow}
    (h : entityPred A f e = true) : e.agent_id = A := by
  simp only [entityPred, Bool.and_eq_true, beq_iff_eq] at h
  exact h.1

theorem lessonPred_agent {A : String} {f : LessonFilters} {e : LessonRow}
    (h : lessonPred A f e = true) : e.agent_id = A := by
  simp only [lessonPred, Bool.and_eq_true, beq_iff_eq] at h
  exact h.1.1

theorem summaryPred_agent {A : String} {f : SummaryFilters} {e : SummaryRow}
    (h : summaryPred A f e = true) : e.agent_id = A := by
  simp only [summaryPred, Bool.and_eq_true, beq_iff_eq] at h
  exact h.1.1

/-- Two scoped recalls for different agents over the same table can share
no id: the table's ids are unique (PRIMARY KEY), so a shared id would be
one row owned by both agents. -/
theorem recall_pair_disjoint {β : Type} (idOf agentOf : β → String)
    (A B : String) (hAB : A ≠ B) (l : List β) (hnd : (l.map idOf).Nodup)
    (p₁ p₂ : β → Bool) (k₁ k₂ : β → Int) (n₁ n₂ : Nat)
    (hp₁ : ∀ x, p₁ x = true → agentOf x = A)
    (hp₂ : ∀ x, p₂ x = true → agentOf x = B) :
    ∀ i, i ∈ (((l.filter p₁).insertionSort (descBy k₁)).take n₁).map idOf →
      i ∈ (((l.filter p₂).insertionSort (descBy k₂)).take n₂).map idOf → False := by
  intro i hi₁ hi₂
  obtain ⟨r₁, hr₁, hid₁⟩ := List.mem_map.1 hi₁
  obtain ⟨r₂, hr₂, hid₂⟩ := List.mem_map.1 hi₂
  obtain ⟨hm₁, hq₁⟩ := mem_recall_pipeline hr₁
  obtain ⟨hm₂, hq₂⟩ := mem_recall_pipeline hr₂
  have heq : r₁ = r₂ :=
    List.inj_on_of_nodup_map hnd hm₁ hm₂ (by rw [hid₁, hid₂])
  apply hAB
  rw [← hp₁ r₁ hq₁, heq, hp₂ r₂ hq₂]

/-- A hit of a per-kind search block originates in a row of that table
owned by the agent, and its envelope carries the block's kind tag. -/
theorem searchEventsPart_origin {mtch : String → String → String → Bool}
    {rnk : String → String → String → Int} {A q : String} {lim : Nat} {db : Db}
    {x : SearchResult} (hx : x ∈ searchEventsPart mtch rnk A q lim db) :
    ∃ e ∈ db.events, e.id = x.id ∧ e.agent_id = A ∧ x.type = "event" := by
  obtain ⟨p, hp, rfl⟩ := List.mem_map.1 hx
  have hrows : p ∈ eventHitRows mtch A q db := (topK_subperm _ _ _).subset hp
  obtain ⟨hjoin, hpred⟩ := List.mem_filter.1 hrows
  obtain ⟨doc, _, heq⟩ := List.mem_filterMap.1 hjoin
  simp only [Bool.and_eq_true, beq_iff_eq] at hpred
  cases hfind : db.events.find? (fun e => e.rowid == doc.rowid) with
  | none => rw [hfind] at heq; cases heq
  | some e =>
    rw [hfind] at heq
    cases heq
    exact ⟨e, List.mem_of_find?_eq_some hfind, rfl, hpred.1, rfl⟩

theorem searchEntitiesPart_origin {mtch : String → String → String → Bool}
    {rnk : String → String → String → Int} {A q : String} {lim : Nat} {db : Db}
    {x : SearchResult} (hx : x ∈ searchEntitiesPart mtch rnk A q lim db) :
    ∃ e ∈ db.entities, e.id = x.id ∧ e.agent_id = A ∧ x.type = "entity" := by
  obtain ⟨p, hp, rfl⟩ := List.mem_map.1 hx
  have hrows : p ∈ entityHitRows mtch A q db := (topK_subperm _ _ _).subset hp
  obtain ⟨hjoin, hpred⟩ := List.mem_filter.1 hrows
  obtain ⟨doc, _, heq⟩ := List.mem_filterMap.1 hjoin
  simp only [Bool.and_eq_true, beq_iff_eq] at hpred
  cases hfind : db.entities.find? (fun e => e.rowid == doc.rowid) with
  | none => rw [hfind] at heq; cases heq
  | some e =>
    rw [hfind] at heq
    cases heq
    exact ⟨e, List.mem_of_find?_eq_some hfind, rfl, hpred.1, rfl⟩

theorem searchLessonsPart_origin {mtch : String → String → String → Bool}
    {rnk : String → String → String → Int} {A q : String} {lim : Nat} {db : Db}
    {x : SearchResult} (hx : x ∈ searchLessonsPart mtch rnk A q lim db) :
    ∃ e ∈ db.lessons, e.id = x.id ∧ e.agent_id = A ∧ x.type = "lesson" := by
  obtain ⟨p, hp, rfl⟩ := List.mem_map.1 hx
  have hrows : p ∈ lessonHitRows mtch A q db := (topK_subperm _ _ _).subset hp
  obtain ⟨hjoin, hpred⟩ := List.mem_filter.1 hrows
  obtain ⟨doc, _, heq⟩ := List.mem_filterMap.1 hjoin
  simp only [Bool.and_eq_true, beq_iff_eq] at hpred
  cases hfind : db.lessons.find? (fun e => e.rowid == doc.rowid) with
  | none => rw [hfind] at heq; cases heq
  | some e =>
    rw [hfind] at heq
    cases heq
    exact ⟨e, List.mem_of_find?_eq_some hfind, rfl, hpred.1, rfl⟩

theorem mem_if_list {c : Bool} {l : List γ} {x : γ}
    (hx : x ∈ (if c = true then l else [])) : x ∈ l := by
  cases c with
  | true => simpa using hx
  | false => simp at hx

/-- C5: tenant isolation.  Every record a recall returns for agent `A`
has `agent_id = A` (for every kind and any filters/limit); every search
hit for `A` originates in a row owned by `A`; and for `A ≠ B` the id sets
returned by two recalls of the same kind are disjoint (given the primary
keys, i.e. per-table id uniqueness). -/
theorem tenant_isolation (db : Db) (A B : String)
    (fe fe' : EventFilters) (fn fn' : EntityFilters) (fl fl' : LessonFilters)
    (fs fs' : SummaryFilters)
    (n₁ n₂ n₃ n₄ n₅ m₁ m₂ m₃ m₄ m₅ lim : Nat)
    (q : String) (types : List String)
    (mtch : String → String → String → Bool)
    (rnk : String → String → String → Int)
    (hAB : A ≠ B)
    (hEv : (db.events.map (fun e => e.id)).Nodup)
    (hEn : (db.entities.map (fun e => e.id)).Nodup)
    (hLe : (db.lessons.map (fun e => e.id)).Nodup)
    (hPr : (db.principles.map (fun e => e.id)).Nodup)
    (hSu : (db.summaries.map (fun e => e.id)).Nodup) :
    (∀ r ∈ (recallEvents A fe n₁ db).2, r.agent_id = A) ∧
    (∀ r ∈ (recallEntities A fn n₂ db).2, r.agent_id = A) ∧
    (∀ r ∈ (recallLessons A fl n₃ db).2, r.agent_id = A) ∧
    (∀ r ∈ (recallPrinciples A n₄ db).2, r.agent_id = A) ∧
    (∀ r ∈ (recallSummaries A fs n₅ db).2, r.agent_id = A) ∧
    (∀ r ∈ (search mtch rnk A q types lim db).2,
      (r.type = "event" → ∃ e ∈ db.events, e.id = r.id ∧ e.agent_id = A) ∧
      (r.type = "entity" → ∃ e ∈ db.entities, e.id = r.id ∧ e.agent_id = A) ∧
      (r.type = "lesson" → ∃ e ∈ db.lessons, e.id = r.id ∧ e.agent_id = A)) ∧
    (∀ i, i ∈ (recallEvents A fe n₁ db).2.map (fun r => r.id) →
      i ∈ (recallEvents B fe' m₁ db).2.map (fun r => r.id) → False) ∧
    (∀ i, i ∈ (recallEntities A fn n₂ db).2.map (fun r => r.id) →
      i ∈ (recallEntities B fn' m₂ db).2.map (fun r => r.id) → False) ∧
    (∀ i, i ∈ (recallLessons A fl n₃ db).2.map (fun r => r.id) →
      i ∈ (recallLessons B fl' m₃ db).2.map (fun r => r.id) → False) ∧
    (∀ i, i ∈ (recallPrinciples A n₄ db).2.map (fun r => r.id) →
      i ∈ (recallPrinciples B m₄ db).2.map (fun r => r.id) → False) ∧
    (∀ i, i ∈ (recallSummaries A fs n₅ db).2.map (fun r => r.id) →
      i ∈ (recallSummaries B fs' m₅ db).2.map (fun r => r.id) → False) := by
  refine ⟨?_, ?_, ?_, ?_, ?_, ?_, ?_, ?_, ?_, ?_, ?_⟩
  · intro r hr
    exact eventPred_agent (mem_recall_pipeline hr).2
  · intro r hr
    exact entityPred_agent (mem_recall_pipeline hr).2
  · intro r hr
    exact lessonPred_agent (mem_recall_pipeline hr).2
  · intro r hr
    have := (mem_recall_pipeline hr).2
    simpa using this
  · intro r hr
    exact summaryPred_agent (mem_recall_pipeline hr).2
  · intro r hr
    have hr' : r ∈ topK (fun s : SearchResult => s.score) lim
        ((if types.contains "events" = true then
            searchEventsPart mtch rnk A q lim db else []) ++
          (if types.contains "entities" = true then
            searchEntitiesPart mtch rnk A q lim db else []) ++
          (if types.contains "lessons" = true then
            searchLessonsPart mtch rnk A q lim db else [])) := hr
    have hmem := (topK_subperm _ _ _).subset hr'
    rcases List.mem_append.1 hmem with h12 | h3
    · rcases List.mem_append.1 h12 with h1 | h2
      · obtain ⟨e, he, hid, hag, hty⟩ := searchEventsPart_origin (mem_if_list h1)
        refine ⟨fun _ => ⟨e, he, hid, hag⟩, fun hc => ?_, fun hc => ?_⟩ <;>
          · rw [hty] at hc
            exact absurd hc (by decide)
      · obtain ⟨e, he, hid, hag, hty⟩ := searchEntitiesPart_origin (mem_if_list h2)
        refine ⟨fun hc => ?_, fun _ => ⟨e, he, hid, hag⟩, fun hc => ?_⟩ <;>
          · rw [hty] at hc
            exact absurd hc (by decide)
    · obtain ⟨e, he, hid, hag, hty⟩ := searchLessonsPart_origin (mem_if_list h3)
      refine ⟨fun hc => ?_, fun hc => ?_, fun _ => ⟨e, he, hid, hag⟩⟩ <;>
        · rw [hty] at hc
          exact absurd hc (by decide)
  · exact recall_pair_disjoint (fun r => r.id) (fun r => r.agent_id) A B hAB
      db.events hEv (eventPred A fe) (eventPred B fe')
      (fun e => e.timestamp) (fun e => e.timestamp) n₁ m₁
      (fun x h => eventPred_agent h) (fun x h => eventPred_agent h)
  · exact recall_pair_disjoint (fun r => r.id) (fun r => r.agent_id) A B hAB
      db.entities hEn (entityPred A fn) (entityPred B fn')
      (fun e => e.updated_at) (fun e => e.updated_at) n₂ m₂
      (fun x h => entityPred_agent h) (fun x h => entityPred_agent h)
  · exact recall_pair_disjoint (fun r => r.id) (fun r => r.agent_id) A B hAB
      db.lessons hLe (lessonPred A fl) (lessonPred B fl')
      (fun e => e.timestamp) (fun e => e.timestamp) n₃ m₃
      (fun x h => lessonPred_agent h) (fun x h => lessonPred_agent h)
  · exact recall_pair_disjoint (fun r => r.id) (fun r => r.agent_id) A B hAB
      db.principles hPr (fun e => e.agent_id == A) (fun e => e.agent_id == B)
      (fun e => e.updated_at) (fun e => e.updated_at) n₄ m₄
      (fun x h => by simpa using h) (fun x h => by simpa using h)
  · exact recall_pair_disjoint (fun r => r.id) (fun r => r.agent_id) A B hAB
      db.summaries hSu (summaryPred A fs) (summaryPred B fs')
      (fun e => e.created_at) (fun e => e.created_at) n₅ m₅
      (fun x h => summaryPred_agent h) (fun x h => summaryPred_agent h)

/-- Witness for C5 at a concrete two-agent state (first conjunct of the
conclusion, with every hypothesis discharged concretely). -/
theorem tenant_isolation_witness :
    ("a" : String) ≠ "b" ∧
      (∀ r ∈ (recallEvents "a" noEventFilters 20
          {emptyDb with events :=
            [⟨"e1", "a", "t", 0, "T", "C", jsonEmptyObj, "hot", 0⟩,
             ⟨"e2", "b", "t", 1, "T", "C", jsonEmptyObj, "hot", 1⟩]}).2,
        r.agent_id = "a") :=
  ⟨by decide,
    (tenant_isolation
      {emptyDb with events :=
        [⟨"e1", "a", "t", 0, "T", "C", jsonEmptyObj, "hot", 0⟩,
         ⟨"e2", "b", "t", 1, "T", "C", jsonEmptyObj, "hot", 1⟩]}
      "a" "b" noEventFilters noEventFilters ⟨none⟩ ⟨none⟩
      ⟨none, none⟩ ⟨none, none⟩ ⟨none, none⟩ ⟨none, none⟩
      20 20 20 20 20 20 20 20 20 20 10 "q" ["events"]
      (fun _ _ _ => true) (fun _ _ _ => 0)
      (by decide) (by decide) (by decide) (by decide) (by decide) (by decide)).1⟩

/-! ## C6 — post-merge truncation -/

theorem searchEventsPart_eq_topK (mtch : String → String → String → Bool)
    (rnk : String → String → String → Int) (A q : String) (k : Nat) (db : Db) :
    searchEventsPart mtch rnk A q k db =
      topK (fun r : SearchResult => r.score) k
        ((eventHitRows mtch A q db).map (eventEnvelope rnk q)) :=
  (topK_map (fun r : SearchResult => r.score)
    (fun p : FtsDoc × EventRow => rnk q p.1.colA p.1.colB) (eventEnvelope rnk q)
    (fun _ => rfl) k (eventHitRows mtch A q db)).symm

theorem searchEntitiesPart_eq_topK (mtch : String → String → String → Bool)
    (rnk : String → String → String → Int) (A q : String) (k : Nat) (db : Db) :
    searchEntitiesPart mtch rnk A q k db =
      topK (fun r : SearchResult => r.score) k
        ((entityHitRows mtch A q db).map (entityEnvelope rnk q)) :=
  (topK_map (fun r : SearchResult => r.score)
    (fun p : FtsDoc × EntityRow => rnk q p.1.colA p.1.colB) (entityEnvelope rnk q)
    (fun _ => rfl) k (entityHitRows mtch A q db)).symm

theorem searchLessonsPart_eq_topK (mtch : String → String → String → Bool)
    (rnk : String → String → String → Int) (A q : String) (k : Nat) (db : Db) :
    searchLessonsPart mtch rnk A q k db =
      topK (fun r : SearchResult => r.score) k
        ((lessonHitRows mtch A q db).map (lessonEnvelope rnk q)) :=
  (topK_map (fun r : SearchResult => r.score)
    (fun p : FtsDoc × LessonRow => rnk q p.1.colA p.1.colB) (lessonEnvelope rnk q)
    (fun _ => rfl) k (lessonHitRows mtch A q db)).symm

/-- C6: the list `search` returns has length ≤ limit, is sorted by score
ascending, and — when all hit scores are distinct, so that "the top-limit
hits" is well defined — equals the result of collecting every per-kind
hit, sorting the merged collection by score, and truncating once: the
per-kind SQL `LIMIT` never changes the outcome. -/
theorem search_post_merge (mtch : String → String → String → Bool)
    (rnk : String → String → String → Int) (A q : String)
    (types : List String) (lim : Nat) (db : Db)
    (hnd : ((searchAllHits mtch rnk A q types db).map
      (fun r : SearchResult => r.score)).Nodup) :
    (search mtch rnk A q types lim db).2 = searchSpec mtch rnk A q types lim db ∧
      (search mtch rnk A q types lim db).2.length ≤ lim ∧
      List.Sorted (keyLE (fun r : SearchResult => r.score))
        (search mtch rnk A q types lim db).2 := by
  have e1 : (if types.contains "events" = true then
        searchEventsPart mtch rnk A q lim db else []) =
      topK (fun r : SearchResult => r.score) lim
        (if types.contains "events" = true then
          (eventHitRows mtch A q db).map (eventEnvelope rnk q) else []) := by
    cases types.contains "events" with
    | true => simpa using searchEventsPart_eq_topK mtch rnk A q lim db
    | false => simp [topK]
  have e2 : (if types.contains "entities" = true then
        searchEntitiesPart mtch rnk A q lim db else []) =
      topK (fun r : SearchResult => r.score) lim
        (if types.contains "entities" = true then
          (entityHitRows mtch A q db).map (entityEnvelope rnk q) else []) := by
    cases types.contains "entities" with
    | true => simpa using searchEntitiesPart_eq_topK mtch rnk A q lim db
    | false => simp [topK]
  have e3 : (if types.contains "lessons" = true then
        searchLessonsPart mtch rnk A q lim db else []) =
      topK (fun r : SearchResult => r.score) lim
        (if types.contains "lessons" = true then
          (lessonHitRows mtch A q db).map (lessonEnvelope rnk q) else []) := by
    cases types.contains "lessons" with
    | true => simpa using searchLessonsPart_eq_topK mtch rnk A q lim db
    | false => simp [topK]
  refine ⟨?_, topK_length_le _ _ _, topK_sorted _ _ _⟩
  show topK (fun r : SearchResult => r.score) lim (_ ++ _ ++ _) = _
  rw [e1, e2, e3, searchSpec]
  exact topK_merge (fun r : SearchResult => r.score) lim _ _ _ hnd

/-- Witness for C6 at a concrete state: one event and one entity with
distinct scores. -/
theorem search_post_merge_witness :
    (((searchAllHits (fun _ _ c => c == "C") (fun _ _ c => c.length)
        "a" "q" ["events", "entities"]
        {emptyDb with
          events := [⟨"e1", "a", "t", 0, "T", "C", jsonEmptyObj, "hot", 0⟩],
          entities := [⟨"n1", "a", "tool", "N", "Clong", 0, jsonEmptyObj, 0⟩],
          eventsFts := [⟨0, "T", "C"⟩],
          entitiesFts := [⟨0, "N", "Clong"⟩],
          nextEventRowid := 1, nextEntityRowid := 1}).map
        (fun r : SearchResult => r.score)).Nodup) ∧
      (search (fun _ _ c => c == "C") (fun _ _ c => c.length) "a" "q"
          ["events", "entities"] 10
          {emptyDb with
            events := [⟨"e1", "a", "t", 0, "T", "C", jsonEmptyObj, "hot", 0⟩],
            entities := [⟨"n1", "a", "tool", "N", "Clong", 0, jsonEmptyObj, 0⟩],
            eventsFts := [⟨0, "T", "C"⟩],
            entitiesFts := [⟨0, "N", "Clong"⟩],
            nextEventRowid := 1, nextEntityRowid := 1}).2 =
        searchSpec (fun _ _ c => c == "C") (fun _ _ c => c.length) "a" "q"
          ["events", "entities"] 10
          {emptyDb with
            events := [⟨"e1", "a", "t", 0, "T", "C", jsonEmptyObj, "hot", 0⟩],
            entities := [⟨"n1", "a", "tool", "N", "Clong", 0, jsonEmptyObj, 0⟩],
            eventsFts := [⟨0, "T", "C"⟩],
            entitiesFts := [⟨0, "N", "Clong"⟩],
            nextEventRowid := 1, nextEntityRowid := 1} :=
  ⟨by decide,
    (search_post_merge (fun _ _ c => c == "C") (fun _ _ c => c.length) "a" "q"
      ["events", "entities"] 10
      {emptyDb with
        events := [⟨"e1", "a", "t", 0, "T", "C", jsonEmptyObj, "hot", 0⟩],
        entities := [⟨"n1", "a", "tool", "N", "Clong", 0, jsonEmptyObj, 0⟩],
        eventsFts := [⟨0, "T", "C"⟩],
        entitiesFts := [⟨0, "N", "Clong"⟩],
        nextEventRowid := 1, nextEntityRowid := 1} (by decide)).1⟩

end Agentmem
